import Mathlib

/-!
Verification development for the Magolor compiler toolchain.

This file gives a shallow embedding, in Lean 4, of the parts of the
repository relevant to the checked properties:

* the hand-rolled typed IR (`src/MagolorCompiler/src/modules/ir/ir_types.rs`),
* the dead-code-elimination pass (`dead_code_elimination.rs`),
* the peephole pass (`peephole.rs`),
* the constant-folding pass (`constant_folding.rs`),
* dominator computation (`control_flow.rs`),
* the graph-colouring register allocator (`register_allocator.rs`),
* the SSA pass and the optimizer pipeline (`ssa_transform.rs`, `ir_optimizer.rs`),
* the stack bytecode VM (`src/Magpie/MagpieRuntime/src/modules/bytecode.rs`).

Modelling conventions, stated once here:

* Rust `usize` indices are `Nat`; Rust `i8/i16/i32/i64` payloads are `Int`
  (wrapping operations apply an explicit `wrap` into the two's-complement
  range where the source uses `wrapping_*`).
* Rust `HashMap`/`HashSet` are modelled as association lists / lists of
  keys.  Their iteration order is unspecified in Rust; the embedding fixes
  a deterministic order.  No checked property depends on that order.
* IEEE floating point is not shallowly embeddable; float payloads are an
  abstract type parameter `F`, and the float arithmetic used by constant
  folding is an abstract operation record (`FloatArith`).  Every checked
  property about floats only uses these operations abstractly.
* Rust panics (index out of bounds, `unwrap` on `None`, remainder by zero)
  are modelled as a dedicated `abort` outcome, distinct from the VM's own
  `Err(String)` runtime errors.
-/

namespace Magolor

/-- IR types, from `ir_types.rs` (`IRType`). -/
inductive IRType where
  | I8 | I16 | I32 | I64 | F32 | F64 | Bool
  | Ptr (pointee : IRType)
  | Array (elem : IRType) (len : Option Nat)
  | Struct (fields : List IRType)
  | Function (params : List IRType) (ret : IRType)
  | Void
deriving Repr

/-- IR constants, from `ir_types.rs` (`IRConstant`).  `F` is the abstract
float payload standing for the source's `OrderedFloat` (an `f64` compared
by bit pattern); both the `F32` and `F64` variants carry it, as in the
source. -/
inductive IRConstant (F : Type) where
  | I8 (v : Int)
  | I16 (v : Int)
  | I32 (v : Int)
  | I64 (v : Int)
  | F32 (v : F)
  | F64 (v : F)
  | Bool (v : Bool)
  | String (v : String)
  | Null
deriving DecidableEq, Repr

/-- IR values, from `ir_types.rs` (`IRValue`). -/
inductive IRValue (F : Type) where
  | Register (r : Nat)
  | Constant (c : IRConstant F)
  | Global (name : String)
  | Local (slot : Nat)
  | Argument (i : Nat)
  | Undef
deriving DecidableEq, Repr

/-- Comparison operators, from `ir_types.rs` (`CmpOp`). -/
inductive CmpOp where
  | Eq | Ne | Lt | Le | Gt | Ge | FEq | FNe | FLt | FLe | FGt | FGe
deriving DecidableEq, Repr

/-- IR instructions, from `ir_types.rs` (`IRInstruction`). -/
inductive IRInstruction (F : Type) where
  | Add (dst : Nat) (lhs rhs : IRValue F) (ty : IRType)
  | Sub (dst : Nat) (lhs rhs : IRValue F) (ty : IRType)
  | Mul (dst : Nat) (lhs rhs : IRValue F) (ty : IRType)
  | Div (dst : Nat) (lhs rhs : IRValue F) (ty : IRType)
  | Mod (dst : Nat) (lhs rhs : IRValue F) (ty : IRType)
  | And (dst : Nat) (lhs rhs : IRValue F)
  | Or (dst : Nat) (lhs rhs : IRValue F)
  | Xor (dst : Nat) (lhs rhs : IRValue F)
  | Shl (dst : Nat) (lhs rhs : IRValue F)
  | Shr (dst : Nat) (lhs rhs : IRValue F) (signed : Bool)
  | Not (dst : Nat) (src : IRValue F)
  | Cmp (dst : Nat) (op : CmpOp) (lhs rhs : IRValue F) (ty : IRType)
  | Load (dst : Nat) (addr : IRValue F) (ty : IRType)
  | Store (addr : IRValue F) (value : IRValue F) (ty : IRType)
  | Alloca (dst : Nat) (ty : IRType) (count : Option Nat)
  | Branch (target : Nat)
  | CondBranch (cond : IRValue F) (true_target false_target : Nat)
  | Return (value : Option (IRValue F))
  | Call (dst : Option Nat) (func : String) (args : List (IRValue F)) (ty : IRType)
  | IndirectCall (dst : Option Nat) (func : IRValue F) (args : List (IRValue F)) (ty : IRType)
  | Cast (dst : Nat) (src : IRValue F) (from_ty to_ty : IRType)
  | Bitcast (dst : Nat) (src : IRValue F) (to_ty : IRType)
  | GetElementPtr (dst : Nat) (base : IRValue F) (indices : List (IRValue F)) (ty : IRType)
  | ExtractValue (dst : Nat) (aggregate : IRValue F) (index : Nat)
  | InsertValue (dst : Nat) (aggregate : IRValue F) (value : IRValue F) (index : Nat)
  | Phi (dst : Nat) (incoming : List (IRValue F × Nat)) (ty : IRType)
  | Select (dst : Nat) (cond : IRValue F) (true_val false_val : IRValue F)
  | Move (dst : Nat) (src : IRValue F)
  | Intrinsic (dst : Option Nat) (name : String) (args : List (IRValue F))
deriving Repr

/-- Inline hints, from `ir_types.rs` (`InlineHint`). -/
inductive InlineHint where
  | None | Always | Hint
deriving DecidableEq, Repr

/-- Function attributes, from `ir_types.rs` (`FunctionAttributes`). -/
structure FunctionAttributes where
  inline : InlineHint := .None
  no_inline : Bool := false
  pure : Bool := false
  const_fn : Bool := false
  hot : Bool := false
  cold : Bool := false
deriving Repr

/-- Basic blocks, from `ir_types.rs` (`IRBasicBlock`). -/
structure IRBasicBlock (F : Type) where
  id : Nat
  instructions : List (IRInstruction F)
  predecessors : List Nat
  successors : List Nat
  dominators : List Nat
  dom_frontier : List Nat
deriving Repr

/-- Functions, from `ir_types.rs` (`IRFunction`). -/
structure IRFunction (F : Type) where
  name : String
  params : List (String × IRType)
  return_type : IRType
  blocks : List (IRBasicBlock F)
  local_count : Nat
  register_count : Nat
  is_inline : Bool
  is_pure : Bool
  attributes : FunctionAttributes
deriving Repr

/-- Globals, from `ir_types.rs` (`IRGlobal`). -/
structure IRGlobal (F : Type) where
  name : String
  ty : IRType
  init : Option (IRConstant F)
  is_const : Bool
  alignment : Nat
deriving Repr

/-- Programs, from `ir_types.rs` (`IRProgram`).  The source stores
functions and globals in `HashMap`s; the embedding uses association
lists (each pass maps over all values, so iteration order is
irrelevant to every property checked below). -/
structure IRProgram (F : Type) where
  functions : List (String × IRFunction F)
  globals : List (String × IRGlobal F)
  string_literals : List (String × Nat)
  type_definitions : List (String × IRType)
deriving Repr

/-! ### Small list-as-set helpers shared by the passes

The Rust passes use `HashSet<usize>`; the embedding uses `List Nat`
with membership-guarded insertion. -/

/-- Insert a number into a list-as-set (no duplicates). -/
def setInsert (s : List Nat) (x : Nat) : List Nat :=
  if x ∈ s then s else x :: s

/-! ### Dead-code elimination, from `dead_code_elimination.rs` -/

variable {F : Type}

/-- From `DeadCodeEliminator::mark_value_live`: a `Register` operand is
added to the live set. -/
def mark_value_live (live : List Nat) : IRValue F → List Nat
  | .Register r => setInsert live r
  | _ => live

/-- From `DeadCodeEliminator::mark_instruction_operands`: only the
operands of `Return`, `Store`, `Call`, `IndirectCall` and `CondBranch`
are marked live; every other instruction contributes nothing. -/
def mark_instruction_operands (live : List Nat) : IRInstruction F → List Nat
  | .Return (some val) => mark_value_live live val
  | .Store _ value _ => mark_value_live live value
  | .Call _ _ args _ => args.foldl mark_value_live live
  | .IndirectCall _ _ args _ => args.foldl mark_value_live live
  | .CondBranch cond _ _ => mark_value_live live cond
  | _ => live

/-- From `DeadCodeEliminator::mark_live_registers`: fold
`mark_instruction_operands` over every instruction of every block. -/
def mark_live_registers (func : IRFunction F) : List Nat :=
  func.blocks.foldl (fun live b => b.instructions.foldl mark_instruction_operands live) []

/-- From `DeadCodeEliminator::is_instruction_live`: terminators, stores
and calls are always kept; an instruction with a destination register is
kept iff that register is in the live set; an `Intrinsic` without a
destination is kept. -/
def is_instruction_live (live : List Nat) : IRInstruction F → Bool
  | .Return _ | .Branch _ | .CondBranch _ _ _ | .Store _ _ _
  | .Call _ _ _ _ | .IndirectCall _ _ _ _ => true
  | .Add dst _ _ _ | .Sub dst _ _ _ | .Mul dst _ _ _ | .Div dst _ _ _
  | .Mod dst _ _ _ | .And dst _ _ | .Or dst _ _ | .Xor dst _ _
  | .Shl dst _ _ | .Shr dst _ _ _ | .Not dst _ | .Cmp dst _ _ _ _
  | .Load dst _ _ | .Alloca dst _ _ | .Cast dst _ _ _ | .Bitcast dst _ _
  | .GetElementPtr dst _ _ _ | .ExtractValue dst _ _ | .InsertValue dst _ _ _
  | .Phi dst _ _ | .Select dst _ _ _ | .Move dst _ => decide (dst ∈ live)
  | .Intrinsic dst _ _ =>
      match dst with
      | some d => decide (d ∈ live)
      | none => true

/-- The extra branch targets `mark_reachable_blocks` visits from a
block's last instruction. -/
def lastInstrTargets : List (IRInstruction F) → List Nat
  | [] => []
  | instrs =>
    match instrs.getLast? with
    | some (.Branch target) => [target]
    | some (.CondBranch _ t f) => [t, f]
    | _ => []

/-- From `DeadCodeEliminator::mark_reachable_blocks`, a depth-first
marking.  The Rust recursion terminates because the visited set grows;
the embedding uses fuel (one unit per call; `func.blocks.length + 1`
units suffice for any chain of productive calls, and the callers below
pass more than enough). -/
def mark_reachable_blocks (func : IRFunction F) : Nat → List Nat → Nat → List Nat
  | 0, live, _ => live
  | fuel + 1, live, block_id =>
    if block_id ∈ live ∨ func.blocks.length ≤ block_id then live
    else
      let live := block_id :: live
      match func.blocks.find? (fun b => b.id = block_id) with
      | none => live
      | some block =>
        let live := block.successors.foldl (fun l s => mark_reachable_blocks func fuel l s) live
        (lastInstrTargets block.instructions).foldl
          (fun l s => mark_reachable_blocks func fuel l s) live

/-- From `DeadCodeEliminator::eliminate_dead_code`: remove unreachable
blocks, then remove instructions whose destination is not live.  Returns
the rewritten function and the `changed` flag. -/
def eliminate_dead_code (func : IRFunction F) : IRFunction F × Bool :=
  let live_blocks := mark_reachable_blocks func (func.blocks.length * func.blocks.length + 2) [] 0
  let old_block_count := func.blocks.length
  let blocks := func.blocks.filter (fun b => b.id ∈ live_blocks)
  let blocks_removed := old_block_count != blocks.length
  let func := { func with blocks := blocks }
  let live_registers := mark_live_registers func
  let pairs := func.blocks.map (fun b =>
    let kept := b.instructions.filter (is_instruction_live live_registers)
    ({ b with instructions := kept }, b.instructions.length != kept.length))
  let instrs_removed := pairs.any (fun p => p.2)
  ({ func with blocks := pairs.map (fun p => p.1) }, blocks_removed || instrs_removed)

/-- From `DeadCodeEliminator::run`: run elimination over every function,
OR-ing the per-function `changed` flags. -/
def dceRun (program : IRProgram F) : IRProgram F × Bool :=
  let pairs := program.functions.map (fun (n, f) => (n, eliminate_dead_code f))
  ({ program with functions := pairs.map (fun (n, p) => (n, p.1)) },
   pairs.any (fun (_, p) => p.2))

/-! ### Reference semantics for straight-line IR

Modelled from the spec: the spec's dead-code-elimination property
("the observable I/O sequence of the program — `Print*`, `Store` to
globals, returns from `main` — is unchanged") needs an evaluation
semantics for IR, which the repository does not define as code (the IR
is only ever emitted to assembly).  The evaluator below gives the
spec's reading for straight-line (single-block) functions built from
`Move`, integer `Add` and `Return`: registers hold integer values, a
read of a never-written register is undefined (`none`), and the
observable result is the returned value. -/

/-- Read an IR value in a register file (association list). -/
def evalValue (regs : List (Nat × Int)) : IRValue F → Option Int
  | .Register r => (regs.find? (fun p => p.1 = r)).map (fun p => p.2)
  | .Constant (.I32 n) => some n
  | .Constant (.I64 n) => some n
  | _ => none

/-- Evaluate a straight-line instruction list, returning the value of
the first `Return` reached (`none` on an undefined read, a fall-through,
or an instruction outside the `Move`/`Add`/`Return` fragment). -/
def evalStraight (regs : List (Nat × Int)) : List (IRInstruction F) → Option Int
  | [] => none
  | .Move dst src :: rest => do
      let v ← evalValue regs src
      evalStraight ((dst, v) :: regs) rest
  | .Add dst lhs rhs _ :: rest => do
      let a ← evalValue regs lhs
      let b ← evalValue regs rhs
      evalStraight ((dst, a + b) :: regs) rest
  | .Return (some v) :: _ => evalValue regs v
  | _ => none

/-- Observable result of a single-block function under the reference
semantics. -/
def evalFunction (func : IRFunction F) : Option Int :=
  match func.blocks with
  | [b] => evalStraight [] b.instructions
  | _ => none

/-! ### Peephole optimization, from `peephole.rs` -/

/-- Count of trailing zero bits, fuel-bounded (64 bits suffice). -/
def tzGo : Nat → Nat → Nat
  | 0, _ => 0
  | fuel + 1, n => if n % 2 = 0 ∧ 0 < n then tzGo fuel (n / 2) + 1 else 0

/-- Rust `i32::trailing_zeros` on the non-negative inputs the callers
guard for. -/
def trailing_zeros (n : Int) : Int := Int.ofNat (tzGo 64 n.toNat)

/-- From the `IntegerPowerOfTwo` trait in `peephole.rs`:
`*self > 0 && (*self & (*self - 1)) == 0`. -/
def is_power_of_two (n : Int) : Bool :=
  0 < n ∧ n.toNat &&& (n.toNat - 1) = 0

/-- Does a value match `IRValue::Constant(IRConstant::I32(0) | IRConstant::I64(0))`? -/
def isZeroIntConst : IRValue F → Bool
  | .Constant (.I32 0) | .Constant (.I64 0) => true
  | _ => false

/-- Does a value match `IRValue::Constant(IRConstant::I32(1) | IRConstant::I64(1))`? -/
def isOneIntConst : IRValue F → Bool
  | .Constant (.I32 1) | .Constant (.I64 1) => true
  | _ => false

/-- From `PeepholeOptimizer::try_pattern_match_single`.

Faithfulness note on the Rust `match`: arms are tried in order and the
patterns `Mul { dst, rhs, .. }` (the `x*0` arm) and
`Xor { dst, lhs, rhs }` (the `x^0` arm) are irrefutable for their
variants, so they capture every `Mul` / `Xor` instruction.  The later
arms commented `x * 1 => x`, `x * 2 => x << 1` and `x ^ x => 0` in the
source are unreachable (rustc reports them as unreachable patterns): when
the first arm's inner `if` fails, control falls out of the `match` and
the function returns `None`.  The embedding therefore has exactly one
case per variant. -/
def try_pattern_match_single (instr : IRInstruction F) : Option (IRInstruction F) :=
  match instr with
  | .Add dst lhs rhs _ => if isZeroIntConst rhs then some (.Move dst lhs) else none
  | .Sub dst lhs rhs _ => if isZeroIntConst rhs then some (.Move dst lhs) else none
  | .Mul dst _ rhs _ => if isZeroIntConst rhs then some (.Move dst rhs) else none
  | .Div dst lhs rhs _ => if isOneIntConst rhs then some (.Move dst lhs) else none
  | .And dst _ rhs => if isZeroIntConst rhs then some (.Move dst rhs) else none
  | .Or dst lhs rhs => if isZeroIntConst rhs then some (.Move dst lhs) else none
  | .Xor dst lhs rhs => if isZeroIntConst rhs then some (.Move dst lhs) else none
  | _ => none

/-- What `try_pattern_match_single` was evidently meant to do, following
the source's own comments and the spec's pattern list (including the
shadowed `x*1 → x`, `x*2^k → x<<k` and `x^x → 0` rewrites).  Used only
to witness the divergence from the executed behaviour. -/
def try_pattern_match_single_intended [DecidableEq F]
    (instr : IRInstruction F) : Option (IRInstruction F) :=
  match instr with
  | .Add dst lhs rhs _ => if isZeroIntConst rhs then some (.Move dst lhs) else none
  | .Sub dst lhs rhs _ => if isZeroIntConst rhs then some (.Move dst lhs) else none
  | .Mul dst lhs rhs _ =>
      if isZeroIntConst rhs then some (.Move dst rhs)
      else if isOneIntConst rhs then some (.Move dst lhs)
      else
        match rhs with
        | .Constant (.I32 n) =>
            if is_power_of_two n ∧ 1 < n then
              some (.Shl dst lhs (.Constant (.I32 (trailing_zeros n))))
            else none
        | _ => none
  | .Div dst lhs rhs _ => if isOneIntConst rhs then some (.Move dst lhs) else none
  | .And dst _ rhs => if isZeroIntConst rhs then some (.Move dst rhs) else none
  | .Or dst lhs rhs => if isZeroIntConst rhs then some (.Move dst lhs) else none
  | .Xor dst lhs rhs =>
      if isZeroIntConst rhs then some (.Move dst lhs)
      else if lhs = rhs then some (.Move dst (.Constant (.I32 0)))
      else none
  | _ => none

/-- From `PeepholeOptimizer::try_pattern_match_pair`: move-move
forwarding and store-then-load forwarding (the add-add arm in the source
only matches and never rewrites). -/
def try_pattern_match_pair [DecidableEq F] (instr1 instr2 : IRInstruction F) :
    Option (List (IRInstruction F)) :=
  match instr1, instr2 with
  | .Move dst1 src1, .Move dst2 (.Register src2) =>
      if dst1 = src2 then some [.Move dst2 src1] else none
  | .Store addr1 value ty1, .Load dst addr2 _ =>
      if addr1 = addr2 then some [.Store addr1 value ty1, .Move dst value] else none
  | _, _ => none

/-- From `PeepholeOptimizer::optimize_block`: scan the instruction list,
trying pair patterns (splicing their replacement and rescanning at the
same index) and then single patterns.  Fuel decreases every loop
iteration; `2 * length + 1` units suffice because every pair rewrite
shortens the remaining work and every other step advances `i`. -/
def optimize_block_go [DecidableEq F] (fuel : Nat) (instrs : List (IRInstruction F))
    (i : Nat) (changed : Bool) : List (IRInstruction F) × Bool :=
  match fuel with
  | 0 => (instrs, changed)
  | fuel + 1 =>
    if h : i < instrs.length then
      match instrs.get? (i + 1) with
      | some nxt =>
        (match try_pattern_match_pair (instrs.get ⟨i, h⟩) nxt with
         | some replacement =>
             optimize_block_go fuel
               (instrs.take i ++ replacement ++ instrs.drop (i + 2)) i true
         | none =>
             match try_pattern_match_single (instrs.get ⟨i, h⟩) with
             | some r => optimize_block_go fuel (instrs.set i r) (i + 1) true
             | none => optimize_block_go fuel instrs (i + 1) changed)
      | none =>
        match try_pattern_match_single (instrs.get ⟨i, h⟩) with
        | some r => optimize_block_go fuel (instrs.set i r) (i + 1) true
        | none => optimize_block_go fuel instrs (i + 1) changed
    else (instrs, changed)

/-- From `PeepholeOptimizer::optimize_block`. -/
def optimize_block [DecidableEq F] (block : IRBasicBlock F) : IRBasicBlock F × Bool :=
  let (instrs, changed) :=
    optimize_block_go (4 * block.instructions.length + 4) block.instructions 0 false
  ({ block with instructions := instrs }, changed)

/-- From `PeepholeOptimizer::run` / `optimize_function`. -/
def peepholeRun [DecidableEq F] (program : IRProgram F) : IRProgram F × Bool :=
  let pairs : List ((String × IRFunction F) × Bool) := program.functions.map (fun (n, f) =>
    let bp : List (IRBasicBlock F × Bool) := f.blocks.map optimize_block
    ((n, { f with blocks := bp.map (fun q => q.1) }), bp.any (fun q => q.2)))
  ({ program with functions := pairs.map (fun (nf, _) => nf) },
   pairs.any (fun (_, c) => c))

/-! ### Constant folding, from `constant_folding.rs` -/

/-- Abstract float arithmetic used by `ConstantFolder`.  The `*32`
operations stand for the source's round trip `as_f32` / operate / store
back (`OrderedFloat` keeps an `f64`); the `isZero*` predicates stand for
the guards `b.as_f32() != 0.0` / `b.as_f64() != 0.0`. -/
structure FloatArith (F : Type) where
  add32 : F → F → F
  sub32 : F → F → F
  mul32 : F → F → F
  div32 : F → F → F
  add64 : F → F → F
  sub64 : F → F → F
  mul64 : F → F → F
  div64 : F → F → F
  isZero32 : F → Bool
  isZero64 : F → Bool

/-- Trivial instantiation of `FloatArith` over `Unit`, used to run the
embedding on concrete programs that contain no float constants. -/
def unitFloats : FloatArith Unit :=
  ⟨fun _ _ => (), fun _ _ => (), fun _ _ => (), fun _ _ => (),
   fun _ _ => (), fun _ _ => (), fun _ _ => (), fun _ _ => (),
   fun _ => false, fun _ => false⟩

/-- Two's-complement wrap of an integer into `w` bits, the meaning of
Rust's `wrapping_*` operations on `i{w}`. -/
def wrap (w : Nat) (x : Int) : Int :=
  (x + 2 ^ (w - 1)) % 2 ^ w - 2 ^ (w - 1)

/-- Rust `i32::wrapping_add` on `Int` representatives. -/
def wrapping_add32 (a b : Int) : Int := wrap 32 (a + b)

/-- Rust `i64::wrapping_add` on `Int` representatives. -/
def wrapping_add64 (a b : Int) : Int := wrap 64 (a + b)

/-- Rust `i32::wrapping_sub`. -/
def wrapping_sub32 (a b : Int) : Int := wrap 32 (a - b)

/-- Rust `i64::wrapping_sub`. -/
def wrapping_sub64 (a b : Int) : Int := wrap 64 (a - b)

/-- Rust `i32::wrapping_mul`. -/
def wrapping_mul32 (a b : Int) : Int := wrap 32 (a * b)

/-- Rust `i64::wrapping_mul`. -/
def wrapping_mul64 (a b : Int) : Int := wrap 64 (a * b)

/-- Rust `i32::wrapping_div` (truncated division; the only wrap case is
`i32::MIN / -1`). -/
def wrapping_div32 (a b : Int) : Int := wrap 32 (Int.tdiv a b)

/-- Rust `i64::wrapping_div`. -/
def wrapping_div64 (a b : Int) : Int := wrap 64 (Int.tdiv a b)

variable (FA : FloatArith F)

/-- From `ConstantFolder::fold_add`: only same-typed `I32`, `I64`,
`F32`, `F64` pairs fold; everything else (including `I8`/`I16` pairs and
mixed types) returns `None`. -/
def fold_add : IRConstant F → IRConstant F → Option (IRConstant F)
  | .I32 a, .I32 b => some (.I32 (wrapping_add32 a b))
  | .I64 a, .I64 b => some (.I64 (wrapping_add64 a b))
  | .F32 a, .F32 b => some (.F32 (FA.add32 a b))
  | .F64 a, .F64 b => some (.F64 (FA.add64 a b))
  | _, _ => none

/-- From `ConstantFolder::fold_sub`. -/
def fold_sub : IRConstant F → IRConstant F → Option (IRConstant F)
  | .I32 a, .I32 b => some (.I32 (wrapping_sub32 a b))
  | .I64 a, .I64 b => some (.I64 (wrapping_sub64 a b))
  | .F32 a, .F32 b => some (.F32 (FA.sub32 a b))
  | .F64 a, .F64 b => some (.F64 (FA.sub64 a b))
  | _, _ => none

/-- From `ConstantFolder::fold_mul`. -/
def fold_mul : IRConstant F → IRConstant F → Option (IRConstant F)
  | .I32 a, .I32 b => some (.I32 (wrapping_mul32 a b))
  | .I64 a, .I64 b => some (.I64 (wrapping_mul64 a b))
  | .F32 a, .F32 b => some (.F32 (FA.mul32 a b))
  | .F64 a, .F64 b => some (.F64 (FA.mul64 a b))
  | _, _ => none

/-- From `ConstantFolder::fold_div`: the integer arms are guarded by
`*b != 0` and the float arms by `b.as_f32() != 0.0` / `b.as_f64() != 0.0`;
a zero right literal falls to the catch-all and is not folded. -/
def fold_div : IRConstant F → IRConstant F → Option (IRConstant F)
  | .I32 a, .I32 b => if b ≠ 0 then some (.I32 (wrapping_div32 a b)) else none
  | .I64 a, .I64 b => if b ≠ 0 then some (.I64 (wrapping_div64 a b)) else none
  | .F32 a, .F32 b => if ¬ FA.isZero32 b then some (.F32 (FA.div32 a b)) else none
  | .F64 a, .F64 b => if ¬ FA.isZero64 b then some (.F64 (FA.div64 a b)) else none
  | _, _ => none

/-- From `ConstantFolder::fold_instruction`: an `Add`/`Sub`/`Mul`/`Div`
whose two operands are literal constants is replaced by a
`Move dst ← folded-constant` when the corresponding `fold_*` succeeds. -/
def fold_instruction (instr : IRInstruction F) : Option (IRInstruction F) :=
  match instr with
  | .Add dst (.Constant c1) (.Constant c2) _ =>
      (fold_add FA c1 c2).map (fun r => .Move dst (.Constant r))
  | .Sub dst (.Constant c1) (.Constant c2) _ =>
      (fold_sub FA c1 c2).map (fun r => .Move dst (.Constant r))
  | .Mul dst (.Constant c1) (.Constant c2) _ =>
      (fold_mul FA c1 c2).map (fun r => .Move dst (.Constant r))
  | .Div dst (.Constant c1) (.Constant c2) _ =>
      (fold_div FA c1 c2).map (fun r => .Move dst (.Constant r))
  | _ => none

/-- From `ConstantFolder::fold_block`. -/
def fold_block (block : IRBasicBlock F) : IRBasicBlock F × Bool :=
  let pairs := block.instructions.map (fun i =>
    match fold_instruction FA i with
    | some folded => (folded, true)
    | none => (i, false))
  ({ block with instructions := pairs.map (fun p => p.1) }, pairs.any (fun p => p.2))

/-- From `ConstantFolder::run` / `fold_function`. -/
def constFoldRun (program : IRProgram F) : IRProgram F × Bool :=
  let pairs : List ((String × IRFunction F) × Bool) := program.functions.map (fun (n, f) =>
    let bp : List (IRBasicBlock F × Bool) := f.blocks.map (fold_block FA)
    ((n, { f with blocks := bp.map (fun q => q.1) }), bp.any (fun q => q.2)))
  ({ program with functions := pairs.map (fun (nf, _) => nf) },
   pairs.any (fun (_, c) => c))

/-! ### Wrapping evaluation, modelled from the spec

The spec states the folding contract as "the folded constant equals the
unfolded evaluation (mod wrapping for integers)".  The evaluators below
are that spec-side reading for the integer widths folded by the code:
evaluate the arithmetic exactly over the integers, then wrap into the
operand width. -/

/-- Spec-side wrapping evaluation of an integer binary operation at
width `w` (`op` ranges over the four folded operations; division is the
truncated division of the source languages). -/
def specWrappingEval (w : Nat) (op : Nat) (a b : Int) : Int :=
  wrap w (match op with
    | 0 => a + b
    | 1 => a - b
    | 2 => a * b
    | _ => Int.tdiv a b)

/-! ### Dominators, from `control_flow.rs` (`ControlFlowAnalyzer::compute_dominators`)

The source reads `blocks[i].predecessors` and writes `blocks[i].dominators`
(both indexed by position).  The embedding works on the projections:
`preds : List (List Nat)` in, `doms : List (List Nat)` out. -/

/-- The intersection of the predecessors' dominator sets, starting from
the first predecessor's set and filtering by each remaining one
(`HashSet::intersection` on the list-as-set model). -/
def domInter (doms : List (List Nat)) (p0 : Nat) (rest : List Nat) : List Nat :=
  rest.foldl (fun acc p => acc.filter (fun x => x ∈ doms.getD p [])) (doms.getD p0 [])

/-- The candidate dominator list for block `i`: the intersection plus
`i` itself, sorted (`new_doms.insert(i)` then `sort_unstable`). -/
def domNew (doms : List (List Nat)) (i p0 : Nat) (rest : List Nat) : List Nat :=
  let inter := domInter doms p0 rest
  List.insertionSort (· ≤ ·) (if i ∈ inter then inter else i :: inter)

/-- The update for one block `i` inside the `for i in 1..n` sweep: if `i`
has no predecessors it is skipped; otherwise its new dominator set is the
intersection of its predecessors' current sets plus `i` itself, stored
sorted; the `changed` flag records whether the stored list differed. -/
def domStep (preds : List (List Nat)) (doms : List (List Nat)) (i : Nat) :
    List (List Nat) × Bool :=
  match preds.getD i [] with
  | [] => (doms, false)
  | p0 :: rest =>
    let sorted := domNew doms i p0 rest
    if sorted = doms.getD i [] then (doms, false)
    else (doms.set i sorted, true)

/-- Fold of per-block updates over an index list, threading the
partially updated sets exactly as the in-place Rust mutation does. -/
def domFold (preds : List (List Nat)) (L : List Nat)
    (doms : List (List Nat)) (b : Bool) : List (List Nat) × Bool :=
  L.foldl
    (fun acc i =>
      let next := domStep preds acc.1 i
      (next.1, acc.2 || next.2))
    (doms, b)

/-- One full sweep of the `for i in 1..n` loop. -/
def domSweep (preds : List (List Nat)) (doms : List (List Nat)) :
    List (List Nat) × Bool :=
  domFold preds (List.range' 1 (preds.length - 1)) doms false

/-- The bookkeeping invariant of the dominator iteration: the list of
sets is block-indexed, the entry keeps its initial `[0]`, and a
predecessor-less non-entry block keeps its initial all-blocks set. -/
def DomInv (preds doms : List (List Nat)) : Prop :=
  doms.length = preds.length ∧
  (0 < preds.length → doms.getD 0 [] = [0]) ∧
  (∀ i, 1 ≤ i → i < preds.length → preds.getD i [] = [] →
    doms.getD i [] = List.range preds.length)

/-- The `while changed` loop.  The Rust loop terminates because the sets
only shrink; the embedding takes fuel and reports `none` if the fixpoint
was not reached within it (so every `some` result is a genuine fixpoint
of the source's loop). -/
def computeDominatorsGo (preds : List (List Nat)) :
    Nat → List (List Nat) → Option (List (List Nat))
  | 0, _ => none
  | fuel + 1, doms =>
    let next := domSweep preds doms
    if next.2 then computeDominatorsGo preds fuel next.1 else some next.1

/-- Initialization: the entry's set is `vec![0]`, every other block's set
is `(0..n).collect()`. -/
def domsInit (n : Nat) : List (List Nat) :=
  (List.range n).map (fun i => if i = 0 then [0] else List.range n)

/-- From `ControlFlowAnalyzer::compute_dominators` (with the block list
projected to its predecessor lists). -/
def compute_dominators (preds : List (List Nat)) (fuel : Nat) :
    Option (List (List Nat)) :=
  if preds.length = 0 then some []
  else computeDominatorsGo preds fuel (domsInit preds.length)

/-! ### Live ranges, from `control_flow.rs` -/

/-- Rust `usize::MAX`, the initial `start` sentinel of a `LiveRange`. -/
def usizeMax : Nat := 2 ^ 64 - 1

/-- From `control_flow.rs` (`LiveRange`).  The source field `end` is a
Lean keyword and is embedded as `stop`. -/
structure LiveRange where
  register : Nat
  start : Nat × Nat
  stop : Nat × Nat
  uses : List (Nat × Nat)
deriving DecidableEq, Repr

/-- Lexicographic strict order on `(block, instruction)` positions, the
derived `Ord` on Rust tuples. -/
def pairLt (a b : Nat × Nat) : Bool :=
  a.1 < b.1 || (a.1 = b.1 && a.2 < b.2)

/-- From `LiveRange::new`. -/
def lrNew (register : Nat) : LiveRange :=
  ⟨register, (usizeMax, usizeMax), (0, 0), []⟩

/-- From `LiveRange::add_def`. -/
def lrAddDef (lr : LiveRange) (block instr : Nat) : LiveRange :=
  let lr := if pairLt (block, instr) lr.start then { lr with start := (block, instr) } else lr
  if pairLt lr.stop (block, instr) then { lr with stop := (block, instr) } else lr

/-- From `LiveRange::add_use`. -/
def lrAddUse (lr : LiveRange) (block instr : Nat) : LiveRange :=
  let lr := { lr with uses := lr.uses ++ [(block, instr)] }
  let lr := if pairLt (block, instr) lr.start then { lr with start := (block, instr) } else lr
  if pairLt lr.stop (block, instr) then { lr with stop := (block, instr) } else lr

/-- From `LiveRange::overlaps`:
`!(self.end < other.start || other.end < self.start)`. -/
def overlaps (l1 l2 : LiveRange) : Bool :=
  !(pairLt l1.stop l2.start || pairLt l2.stop l1.start)

/-- The `entry(reg).or_insert_with(LiveRange::new)`-then-mutate idiom on
the association-list model of the `HashMap`. -/
def lrUpdate (m : List (Nat × LiveRange)) (r : Nat) (f : LiveRange → LiveRange) :
    List (Nat × LiveRange) :=
  match m with
  | [] => [(r, f (lrNew r))]
  | (k, v) :: rest => if k = r then (k, f v) :: rest else (k, v) :: lrUpdate rest r f

/-- From `ControlFlowAnalyzer::get_used_registers`: register operands of
`Add`/`Sub`/`Mul` (lhs then rhs) and of `Move` (src). -/
def get_used_registers : IRInstruction F → List Nat
  | .Add _ lhs rhs _ | .Sub _ lhs rhs _ | .Mul _ lhs rhs _ =>
      (match lhs with | .Register r => [r] | _ => []) ++
      (match rhs with | .Register r => [r] | _ => [])
  | .Move _ (.Register r) => [r]
  | _ => []

/-- From `ControlFlowAnalyzer::get_defined_reg`: destinations of
`Add`/`Sub`/`Mul`/`Load`/`Move`. -/
def get_defined_reg : IRInstruction F → Option Nat
  | .Add dst _ _ _ | .Sub dst _ _ _ | .Mul dst _ _ _
  | .Load dst _ _ | .Move dst _ => some dst
  | _ => none

/-- From `ControlFlowAnalyzer::compute_live_ranges`: walk every
`(block_idx, instr_idx)` position, recording uses then the def. -/
def compute_live_ranges (func : IRFunction F) : List (Nat × LiveRange) :=
  ((func.blocks.zip (List.range func.blocks.length)).foldl (fun m (b, block_idx) =>
    (b.instructions.zip (List.range b.instructions.length)).foldl (fun m (instr, instr_idx) =>
      let m := (get_used_registers instr).foldl
        (fun m r => lrUpdate m r (fun lr => lrAddUse lr block_idx instr_idx)) m
      match get_defined_reg instr with
      | some r => lrUpdate m r (fun lr => lrAddDef lr block_idx instr_idx)
      | none => m) m) [])

/-! ### Register allocation, from `register_allocator.rs` -/

/-- From `register_allocator.rs` (`PhysicalRegister`). -/
inductive PhysicalRegister where
  | RAX | RBX | RCX | RDX | RSI | RDI
  | R8 | R9 | R10 | R11 | R12 | R13 | R14 | R15
  | Spilled (slot : Nat)
deriving DecidableEq, Repr

/-- The `phys_regs` array of `RegisterAllocator::assign_registers`. -/
def phys_regs : List PhysicalRegister :=
  [.RAX, .RBX, .RCX, .RDX, .RSI, .RDI, .R8, .R9, .R10, .R11, .R12, .R13, .R14, .R15]

/-- From `RegisterAllocator::build_interference_graph`: for every
unordered pair of registers with overlapping live ranges, add the edge
in both directions. -/
def build_interference_edges : List (Nat × LiveRange) → List (Nat × Nat)
  | [] => []
  | (r, lr) :: rest =>
      ((rest.filter (fun p => overlaps lr p.2)).flatMap (fun p => [(r, p.1), (p.1, r)]))
      ++ build_interference_edges rest

/-- The neighbour set of `node` in the interference graph. -/
def neighbors (edges : List (Nat × Nat)) (node : Nat) : List Nat :=
  (edges.filter (fun e => e.1 = node)).map (fun e => e.2)

/-- The key set of the interference `HashMap` (registers with at least
one edge). -/
def graphKeys (edges : List (Nat × Nat)) : List Nat :=
  (edges.map (fun e => e.1)).dedup

/-- Degree of `node` restricted to the `remaining` set
(`neighbors.intersection(&remaining).count()`). -/
def degreeIn (edges : List (Nat × Nat)) (remaining : List Nat) (node : Nat) : Nat :=
  ((neighbors edges node).filter (fun x => x ∈ remaining)).length

/-- `remaining.iter().min_by_key(degree)`: first minimum in iteration
order (the embedding fixes the list order; no property below depends on
the choice). -/
def findMinDegree (edges : List (Nat × Nat)) (remaining : List Nat) : Option Nat :=
  remaining.foldl (fun best x =>
    match best with
    | none => some x
    | some b => if degreeIn edges remaining x < degreeIn edges remaining b then some x else best)
    none

/-- From `RegisterAllocator::choose_spill_candidate`: the remaining
register with the most recorded uses (`max_by_key`, last maximum). -/
def choose_spill_candidate (remaining : List Nat) (lrs : List (Nat × LiveRange)) : Nat :=
  (remaining.foldl (fun best x =>
    let usesOf := fun r => ((lrs.find? (fun p => p.1 = r)).map (fun p => p.2.uses.length)).getD 0
    match best with
    | none => some x
    | some b => if usesOf b ≤ usesOf x then some x else best) none).getD 0

/-- The simplification loop of `RegisterAllocator::graph_coloring`: pick
a minimum-degree node; if its degree is below `k` push it, otherwise
push (and mark spilled) the spill candidate.  One node leaves
`remaining` per iteration, so `remaining.length` fuel suffices. -/
def simplifyGo (edges : List (Nat × Nat)) (lrs : List (Nat × LiveRange)) (k : Nat) :
    Nat → List Nat → List Nat → List Nat → List Nat × List Nat
  | 0, _, stack, spilled => (stack, spilled)
  | fuel + 1, remaining, stack, spilled =>
    match findMinDegree edges remaining with
    | none => (stack, spilled)
    | some node =>
      if degreeIn edges remaining node < k then
        simplifyGo edges lrs k fuel (remaining.erase node) (node :: stack) spilled
      else
        let spill := choose_spill_candidate remaining lrs
        simplifyGo edges lrs k fuel (remaining.erase spill) (spill :: stack) (spill :: spilled)

/-- Colour lookup in the partial colouring (association list). -/
def colorOf (coloring : List (Nat × Nat)) (r : Nat) : Option Nat :=
  (coloring.find? (fun p => p.1 = r)).map (fun p => p.2)

/-- The `while used_colors.contains(&color) { color += 1 }` search;
`used.length + 1` fuel always suffices (pigeonhole). -/
def lowestColorGo (used : List Nat) : Nat → Nat → Nat
  | c, 0 => c
  | c, fuel + 1 => if c ∈ used then lowestColorGo used (c + 1) fuel else c

/-- Lowest colour not used by the given neighbour colours. -/
def lowestColor (used : List Nat) : Nat :=
  lowestColorGo used 0 (used.length + 1)

/-- The selection loop of `RegisterAllocator::graph_coloring`: pop the
stack; skip nodes already marked spilled; otherwise colour with the
lowest colour not used by any already-coloured neighbour, spilling if
that colour reaches `k`. -/
def selectGo (edges : List (Nat × Nat)) (k : Nat) :
    List Nat → List Nat → List (Nat × Nat) → List (Nat × Nat) × List Nat
  | [], spilled, coloring => (coloring, spilled)
  | node :: rest, spilled, coloring =>
    if node ∈ spilled then selectGo edges k rest spilled coloring
    else
      let used := (neighbors edges node).filterMap (colorOf coloring)
      let color := lowestColor used
      if k ≤ color then selectGo edges k rest (node :: spilled) coloring
      else selectGo edges k rest spilled ((node, color) :: coloring)

/-- From `RegisterAllocator::graph_coloring` (both phases). -/
def graph_coloring (lrs : List (Nat × LiveRange)) (k : Nat) :
    List (Nat × Nat) × List Nat :=
  let edges := build_interference_edges lrs
  let remaining := graphKeys edges
  let (stack, spilled) := simplifyGo edges lrs k remaining.length remaining [] []
  selectGo edges k stack spilled []

/-- First position of `r` in the spilled list: the stack slot
`assign_registers` hands out while enumerating the spilled set. -/
def posOf : List Nat → Nat → Option Nat
  | [], _ => none
  | x :: rest, r => if x = r then some 0 else (posOf rest r).map (· + 1)

/-- From `RegisterAllocator::assign_registers`: coloured nodes get
`phys_regs[color]` (colours at 14 or above get nothing), spilled nodes
get `Spilled(slot)`; spilled entries are inserted after the coloured
ones and therefore win in the map. -/
def allocationOf (coloring : List (Nat × Nat)) (spilled : List Nat) (r : Nat) :
    Option PhysicalRegister :=
  match posOf spilled r with
  | some i => some (.Spilled i)
  | none =>
    match colorOf coloring r with
    | some c => if h : c < phys_regs.length then some (phys_regs.get ⟨c, h⟩) else none
    | none => none

/-- A colouring is proper on the interference graph: adjacent distinct
nodes never share a colour. -/
def ProperColoring (edges : List (Nat × Nat)) (coloring : List (Nat × Nat)) : Prop :=
  ∀ a b ca cb, a ≠ b → (a, b) ∈ edges →
    colorOf coloring a = some ca → colorOf coloring b = some cb → ca ≠ cb

/-- Recognizer for the `Spilled` variant. -/
def isSpilledReg : PhysicalRegister → Bool
  | .Spilled _ => true
  | _ => false

/-- The register mapping `RegisterAllocator::allocate` computes for a
function (live ranges → interference graph → colouring → assignment). -/
def allocateFor (func : IRFunction F) (k : Nat) (r : Nat) : Option PhysicalRegister :=
  let lrs := compute_live_ranges func
  let (coloring, spilled) := graph_coloring lrs k
  allocationOf coloring spilled r

/-! ### SSA transformation, from `ssa_transform.rs` -/

/-- Placeholder block used only as the `getD` default when reading an
index that the source would have panicked on; no checked property
depends on it. -/
def emptyBlock : IRBasicBlock F := ⟨0, [], [], [], [], []⟩

/-- Dominator list of block `i` (by position), as read by the SSA pass. -/
def domsOfBlock (blocks : List (IRBasicBlock F)) (i : Nat) : List Nat :=
  ((blocks.get? i).map (fun b => b.dominators)).getD []

/-- One block update of `SSATransform::compute_dominance`: the new set
is `{i}` extended (when `i` has predecessors) with the intersection of
the predecessors' sets, stored sorted. -/
def ssaDomStep (blocks : List (IRBasicBlock F)) (i : Nat) :
    List (IRBasicBlock F) × Bool :=
  match blocks.get? i with
  | none => (blocks, false)
  | some blk =>
    let inter :=
      match blk.predecessors with
      | [] => []
      | p0 :: rest =>
        rest.foldl (fun acc p => acc.filter (fun x => x ∈ domsOfBlock blocks p))
          (domsOfBlock blocks p0)
    let newDom := if i ∈ inter then inter else i :: inter
    let sorted := List.insertionSort (· ≤ ·) newDom
    if sorted = blk.dominators then (blocks, false)
    else (blocks.set i { blk with dominators := sorted }, true)

/-- One sweep of the SSA dominance `for i in 1..n` loop. -/
def ssaDomSweep (blocks : List (IRBasicBlock F)) : List (IRBasicBlock F) × Bool :=
  (List.range' 1 (blocks.length - 1)).foldl
    (fun acc i =>
      let next := ssaDomStep acc.1 i
      (next.1, acc.2 || next.2))
    (blocks, false)

/-- The SSA dominance `while changed` loop.  The Rust loop always
terminates (the sets shrink); the embedding carries fuel and returns the
current state if it runs out — no property proved below depends on the
dominator sets' final values. -/
def ssaDomLoop : Nat → List (IRBasicBlock F) → List (IRBasicBlock F)
  | 0, blocks => blocks
  | fuel + 1, blocks =>
    let next := ssaDomSweep blocks
    if next.2 then ssaDomLoop fuel next.1 else next.1

/-- From `SSATransform::compute_dominance`: initialization followed by
the iterative sweeps. -/
def ssaComputeDominance (blocks : List (IRBasicBlock F)) : List (IRBasicBlock F) :=
  let n := blocks.length
  let init := (blocks.zip (List.range n)).map (fun (b, i) =>
    { b with dominators := if i = 0 then [0] else List.range n })
  ssaDomLoop (n * n + 2) init

/-- From `SSATransform::strictly_dominates`. -/
def strictly_dominates (blocks : List (IRBasicBlock F)) (dom node : Nat) : Bool :=
  dom ≠ node ∧ dom ∈ domsOfBlock blocks node

/-- Append `b` to `runner`'s dominance frontier if absent. -/
def addToFrontier (blocks : List (IRBasicBlock F)) (runner b : Nat) :
    List (IRBasicBlock F) :=
  match blocks.get? runner with
  | none => blocks
  | some blk =>
    if b ∈ blk.dom_frontier then blocks
    else blocks.set runner { blk with dom_frontier := blk.dom_frontier ++ [b] }

/-- The runner walk of `SSATransform::compute_dominance_frontiers`:
climb toward the immediate dominator (the last entry of the sorted
dominator list different from the runner), adding `b` to each frontier
passed.  Fuel bounds the walk; `blocks.length + 1` suffices for the
sorted sets the source maintains. -/
def frontierWalk (b : Nat) : Nat → List (IRBasicBlock F) → Nat → List (IRBasicBlock F)
  | 0, blocks, _ => blocks
  | fuel + 1, blocks, runner =>
    if strictly_dominates blocks runner b then blocks
    else
      let blocks := addToFrontier blocks runner b
      match (domsOfBlock blocks runner).reverse.find? (fun d => d ≠ runner) with
      | some idom => frontierWalk b fuel blocks idom
      | none => blocks

/-- From `SSATransform::compute_dominance_frontiers`. -/
def ssaComputeFrontiers (blocks : List (IRBasicBlock F)) : List (IRBasicBlock F) :=
  let n := blocks.length
  let cleared := blocks.map (fun b => { b with dom_frontier := [] })
  (List.range n).foldl (fun blocks b =>
    let preds := ((blocks.get? b).map (fun blk => blk.predecessors)).getD []
    if 2 ≤ preds.length then
      preds.foldl (fun blocks p => frontierWalk b (blocks.length + 1) blocks p) blocks
    else blocks) cleared

/-- From `SSATransform::get_defined_register` (note: unlike the DCE
pass, this one also looks inside `Call`/`IndirectCall`/`Intrinsic`
destinations). -/
def ssa_get_defined_register : IRInstruction F → Option Nat
  | .Add dst _ _ _ | .Sub dst _ _ _ | .Mul dst _ _ _ | .Div dst _ _ _
  | .Mod dst _ _ _ | .And dst _ _ | .Or dst _ _ | .Xor dst _ _
  | .Shl dst _ _ | .Shr dst _ _ _ | .Not dst _ | .Cmp dst _ _ _ _
  | .Load dst _ _ | .Alloca dst _ _ | .Cast dst _ _ _ | .Bitcast dst _ _
  | .GetElementPtr dst _ _ _ | .ExtractValue dst _ _ | .InsertValue dst _ _ _
  | .Phi dst _ _ | .Select dst _ _ _ | .Move dst _ => some dst
  | .Call (some dst) _ _ _ | .IndirectCall (some dst) _ _ _
  | .Intrinsic (some dst) _ _ => some dst
  | _ => none

/-- Does block `fb` already hold a `Phi` defining `reg`? -/
def hasPhiFor (blocks : List (IRBasicBlock F)) (fb reg : Nat) : Bool :=
  match blocks.get? fb with
  | none => false
  | some blk => blk.instructions.any (fun i =>
      match i with
      | .Phi dst _ _ => dst = reg
      | _ => false)

/-- Insert `Phi { dst := reg, incoming: [], ty: I32 }` at the front of
block `fb` (the hardcoded `IRType::I32` is the source's). -/
def insertPhiAt (blocks : List (IRBasicBlock F)) (fb reg : Nat) :
    List (IRBasicBlock F) :=
  match blocks.get? fb with
  | none => blocks
  | some blk =>
    blocks.set fb { blk with instructions := .Phi reg [] .I32 :: blk.instructions }

/-- The per-register worklist of `SSATransform::insert_phi_nodes`
(`work_list.pop()` takes the vector's last element).  Fuel bounds the
loop; each productive iteration either marks a new visited block or
inserts a phi where none existed, so the generous budget passed by the
caller always suffices for the source's executions. -/
def phiWorklist (reg : Nat) :
    Nat → List (IRBasicBlock F) → List Nat → List Nat → List (IRBasicBlock F)
  | 0, blocks, _, _ => blocks
  | fuel + 1, blocks, work, visited =>
    match work.getLast? with
    | none => blocks
    | some block_id =>
      let work := work.dropLast
      if block_id ∈ visited then phiWorklist reg fuel blocks work visited
      else
        let visited := block_id :: visited
        let df := ((blocks.get? block_id).map (fun b => b.dom_frontier)).getD []
        let (blocks, work) := df.foldl (fun (blocks, work) fb =>
          if hasPhiFor blocks fb reg then (blocks, work)
          else
            let blocks := insertPhiAt blocks fb reg
            (blocks, if fb ∈ work then work else work ++ [fb])) (blocks, work)
        phiWorklist reg fuel blocks work visited

/-- Definition sites per register, in block-then-instruction order (the
source collects them into a `HashMap`; the association-list order here
is one admissible iteration order). -/
def collectDefs (blocks : List (IRBasicBlock F)) : List (Nat × List Nat) :=
  (blocks.zip (List.range blocks.length)).foldl (fun defs (b, block_idx) =>
    b.instructions.foldl (fun defs instr =>
      match ssa_get_defined_register instr with
      | some r =>
        (match defs.find? (fun p => p.1 = r) with
         | some _ => defs.map (fun p => if p.1 = r then (p.1, p.2 ++ [block_idx]) else p)
         | none => defs ++ [(r, [block_idx])])
      | none => defs) defs) []

/-- From `SSATransform::insert_phi_nodes`. -/
def insertPhiNodes (blocks : List (IRBasicBlock F)) : List (IRBasicBlock F) :=
  (collectDefs blocks).foldl (fun blocks (reg, def_blocks) =>
    phiWorklist reg (def_blocks.length + 4 * blocks.length + 4) blocks def_blocks [])
    blocks

/-- From `SSATransform::rename_variables` / `rename_block`: the source
takes `&mut` but only pushes and pops its `stacks` bookkeeping — it
never writes an instruction back, so the function is an identity on the
IR. -/
def renameVariables (func : IRFunction F) : IRFunction F := func

/-- From `SSATransform::transform_to_ssa`: empty functions are reported
unchanged; everything else runs the pipeline and reports `true`
unconditionally. -/
def transform_to_ssa (func : IRFunction F) : IRFunction F × Bool :=
  if func.blocks.isEmpty then (func, false)
  else
    let blocks := ssaComputeDominance func.blocks
    let blocks := ssaComputeFrontiers blocks
    let blocks := insertPhiNodes blocks
    (renameVariables { func with blocks := blocks }, true)

/-- From `SSATransform::run`. -/
def ssaRun (program : IRProgram F) : IRProgram F × Bool :=
  let pairs : List ((String × IRFunction F) × Bool) := program.functions.map (fun (n, f) =>
    let r := transform_to_ssa f
    ((n, r.1), r.2))
  ({ program with functions := pairs.map (fun (nf, _) => nf) },
   pairs.any (fun (_, c) => c))

/-! ### Inlining, from `inline_optimizer.rs` -/

/-- From `InlineOptimizer::build_call_graph`. -/
def build_call_graph (program : IRProgram F) : List (String × List String) :=
  program.functions.map (fun (name, func) =>
    (name, func.blocks.foldl (fun acc b =>
      b.instructions.foldl (fun acc i =>
        match i with
        | .Call _ callee _ _ => acc ++ [callee]
        | _ => acc) acc) []))

/-- The DFS of `InlineOptimizer::is_recursive_helper`, with fuel (the
visited set bounds the Rust recursion; one fuel unit per call and a
budget over the total callee count suffices). -/
def isRecursiveGo (graph : List (String × List String)) (target : String) :
    Nat → String → List String → Bool × List String
  | 0, _, visited => (false, visited)
  | fuel + 1, current, visited =>
    if current ∈ visited then (false, visited)
    else
      let visited := current :: visited
      match graph.find? (fun p => p.1 = current) with
      | none => (false, visited)
      | some (_, callees) =>
        callees.foldl (fun (found, visited) callee =>
          if found then (true, visited)
          else if callee = target then (true, visited)
          else isRecursiveGo graph target fuel callee visited) (false, visited)

/-- From `InlineOptimizer::is_recursive`. -/
def is_recursive (name : String) (graph : List (String × List String)) : Bool :=
  (isRecursiveGo graph name (graph.length + (graph.map (fun p => p.2.length)).sum + 2)
    name []).1

/-- From `InlineOptimizer::identify_inline_candidates` (with the
`always_inline` / `never_inline` override sets empty, as `new()` leaves
them). -/
def identify_inline_candidates (program : IRProgram F)
    (graph : List (String × List String)) : List String :=
  program.functions.foldl (fun cands (name, func) =>
    if func.attributes.no_inline then cands
    else if func.attributes.inline = .Always then
      if name ∈ cands then cands else cands ++ [name]
    else
      let instr_count := (func.blocks.map (fun b => b.instructions.length)).sum
      let cands :=
        if instr_count ≤ 50 && !is_recursive name graph then
          if name ∈ cands then cands else cands ++ [name]
        else cands
      if func.is_pure && func.attributes.inline = .Hint then
        if name ∈ cands then cands else cands ++ [name]
      else cands) []

/-- From `InlineOptimizer::run`: despite its name the pass never
rewrites a call (the loop body only sets `changed = true` per function,
as the source comments admit); it reports `true` exactly when the
candidate set is non-empty, in which case the function list is too. -/
def inlineRun (program : IRProgram F) : IRProgram F × Bool :=
  let cands := identify_inline_candidates program (build_call_graph program)
  if cands.isEmpty then (program, false)
  else (program, !program.functions.isEmpty)

/-! ### Loop optimization, from `loop_optimizer.rs` -/

/-- From `loop_optimizer.rs` (`LoopInfo`). -/
structure LoopInfo where
  header : Nat
  body_blocks : List Nat
  preheader : Option Nat
  exit_blocks : List Nat
deriving Repr

/-- From `LoopOptimizer::identify_loops`: the first predecessor larger
than the block's id yields a two-block loop record. -/
def identify_loops (func : IRFunction F) : List LoopInfo :=
  (func.blocks.foldl (fun (loops, visited) block =>
    if block.id ∈ visited then (loops, visited)
    else
      match block.predecessors.find? (fun p => block.id < p) with
      | some pred =>
        (loops ++ [⟨block.id, [block.id, pred], none, []⟩], block.id :: visited)
      | none => (loops, visited)) (([] : List LoopInfo), ([] : List Nat))).1

/-- From `LoopOptimizer::get_trip_count`: the first `Cmp` in the header
comparing a register against a positive `I32` literal with `Lt`/`Le`. -/
def get_trip_count (func : IRFunction F) (li : LoopInfo) : Option Nat :=
  match func.blocks.find? (fun b => b.id = li.header) with
  | none => none
  | some header_block =>
    (header_block.instructions.filterMap (fun i =>
      match i with
      | .Cmp _ op (.Register _) (.Constant (.I32 n)) _ =>
          match op with
          | .Lt | .Le => if 0 < n then some n.toNat else none
          | _ => none
      | _ => none)).head?

/-- From `LoopOptimizer::unroll_loop`: no rewriting happens; the pass
reports `true` when any body block exists. -/
def unroll_loop (func : IRFunction F) (li : LoopInfo) (trip_count : Nat) : Bool :=
  if 8 < trip_count then false
  else !(li.body_blocks.filterMap
    (fun bid => func.blocks.find? (fun b => b.id = bid))).isEmpty

/-- From `LoopOptimizer::is_value_invariant`. -/
def is_value_invariant : IRValue F → Bool
  | .Constant _ | .Global _ => true
  | _ => false

/-- From `LoopOptimizer::is_loop_invariant`. -/
def is_loop_invariant : IRInstruction F → Bool
  | .Add _ lhs rhs _ | .Sub _ lhs rhs _ | .Mul _ lhs rhs _ =>
      is_value_invariant lhs && is_value_invariant rhs
  | _ => false

/-- From `LoopOptimizer::hoist_invariant_code`: nothing is hoisted; the
pass reports whether any invariant instruction exists in the body. -/
def hoist_invariant_code (func : IRFunction F) (li : LoopInfo) : Bool :=
  li.body_blocks.any (fun bid =>
    match func.blocks.find? (fun b => b.id = bid) with
    | none => false
    | some b => b.instructions.any is_loop_invariant)

/-- The per-instruction rewrite of
`LoopOptimizer::apply_strength_reduction`:
`Mul dst, lhs, 2^k → Shl dst, lhs, k`. -/
def strengthReduceInstr (instr : IRInstruction F) : IRInstruction F × Bool :=
  match instr with
  | .Mul dst lhs (.Constant (.I32 n)) _ =>
      if is_power_of_two n then (.Shl dst lhs (.Constant (.I32 (trailing_zeros n))), true)
      else (instr, false)
  | _ => (instr, false)

/-- Apply a block rewrite to the first block with the given id
(`iter_mut().find`). -/
def modifyFirstBlockWithId (blocks : List (IRBasicBlock F)) (bid : Nat)
    (f : IRBasicBlock F → IRBasicBlock F × Bool) : List (IRBasicBlock F) × Bool :=
  match blocks with
  | [] => ([], false)
  | b :: rest =>
    if b.id = bid then
      let r := f b
      (r.1 :: rest, r.2)
    else
      let r := modifyFirstBlockWithId rest bid f
      (b :: r.1, r.2)

/-- From `LoopOptimizer::apply_strength_reduction`. -/
def apply_strength_reduction (func : IRFunction F) (li : LoopInfo) :
    IRFunction F × Bool :=
  let r := li.body_blocks.foldl (fun (blocks, changed) bid =>
    let r := modifyFirstBlockWithId blocks bid (fun b =>
      let pairs := b.instructions.map strengthReduceInstr
      ({ b with instructions := pairs.map (fun p => p.1) }, pairs.any (fun p => p.2)))
    (r.1, changed || r.2)) (func.blocks, false)
  ({ func with blocks := r.1 }, r.2)

/-- From `LoopOptimizer::optimize_loop`. -/
def optimize_loop (func : IRFunction F) (li : LoopInfo) : IRFunction F × Bool :=
  let unrolled :=
    match get_trip_count func li with
    | some tc => if tc ≤ 8 then unroll_loop func li tc else false
    | none => false
  let hoisted := hoist_invariant_code func li
  let r := apply_strength_reduction func li
  (r.1, unrolled || hoisted || r.2)

/-- From `LoopOptimizer::run` / `optimize_loops`. -/
def loopRun (program : IRProgram F) : IRProgram F × Bool :=
  let pairs : List ((String × IRFunction F) × Bool) := program.functions.map (fun (n, f) =>
    let r := (identify_loops f).foldl (fun (f, ch) li =>
      let r := optimize_loop f li
      (r.1, ch || r.2)) (f, false)
    ((n, r.1), r.2))
  ({ program with functions := pairs.map (fun (nf, _) => nf) },
   pairs.any (fun (_, c) => c))

/-! ### Optimizer pipeline, from `ir_optimizer.rs` -/

/-- From `ir_optimizer.rs` (`OptimizationLevel`). -/
inductive OptimizationLevel where
  | None | Basic | Aggressive | Maximum
deriving DecidableEq, Repr

/-- From `ir_optimizer.rs` (`OptPass`). -/
inductive OptPass where
  | ConstantFolding | DeadCodeElimination | SSATransform | Inlining
  | LoopOptimization | Peephole | ConstantPropagation
  | CommonSubexpressionElimination
deriving DecidableEq, Repr

/-- From `IROptimizer::get_pass_pipeline`. -/
def get_pass_pipeline : OptimizationLevel → List OptPass
  | .None => []
  | .Basic => [.ConstantFolding, .DeadCodeElimination]
  | .Aggressive => [.ConstantFolding, .DeadCodeElimination, .SSATransform,
                    .Inlining, .LoopOptimization, .Peephole]
  | .Maximum => [.ConstantFolding, .SSATransform, .Inlining, .LoopOptimization,
                 .DeadCodeElimination, .Peephole, .ConstantPropagation,
                 .CommonSubexpressionElimination]

/-- From `IROptimizer::get_iteration_count`. -/
def get_iteration_count : OptimizationLevel → Nat
  | .None => 0
  | .Basic => 1
  | .Aggressive => 3
  | .Maximum => 5

/-- From `IROptimizer::run_pass` (the `ConstantPropagation` and
`CommonSubexpressionElimination` arms are `TODO` stubs returning
`false` in the source). -/
def run_pass [DecidableEq F] (FA : FloatArith F) (program : IRProgram F) :
    OptPass → IRProgram F × Bool
  | .ConstantFolding => constFoldRun FA program
  | .DeadCodeElimination => dceRun program
  | .SSATransform => ssaRun program
  | .Inlining => inlineRun program
  | .LoopOptimization => loopRun program
  | .Peephole => peepholeRun program
  | .ConstantPropagation => (program, false)
  | .CommonSubexpressionElimination => (program, false)

/-- The loop body of one outer iteration of `IROptimizer::run_passes`:
run one pass, OR its change flag into the accumulator. -/
def runPassStep [DecidableEq F] (FA : FloatArith F) (acc : IRProgram F × Bool)
    (pass : OptPass) : IRProgram F × Bool :=
  let r := run_pass FA acc.1 pass
  (r.1, acc.2 || r.2)

/-- One outer iteration of `IROptimizer::run_passes`: run every pass of
the pipeline once, OR-ing the change flags. -/
def runAllPasses [DecidableEq F] (FA : FloatArith F) (passes : List OptPass)
    (program : IRProgram F) : IRProgram F × Bool :=
  passes.foldl (runPassStep FA) (program, false)

/-- The `for _ in 0..count` loop of `IROptimizer::run_passes`, returning
the final program together with the number of outer iterations actually
performed (the loop breaks after an iteration in which no pass reported
a change). -/
def runPassesGo [DecidableEq F] (FA : FloatArith F) (passes : List OptPass) :
    Nat → IRProgram F → IRProgram F × Nat
  | 0, program => (program, 0)
  | count + 1, program =>
    let r := runAllPasses FA passes program
    if r.2 then
      let rest := runPassesGo FA passes count r.1
      (rest.1, rest.2 + 1)
    else (r.1, 1)

/-- From `IROptimizer::run_passes`. -/
def run_passes [DecidableEq F] (FA : FloatArith F) (level : OptimizationLevel)
    (program : IRProgram F) : IRProgram F × Nat :=
  runPassesGo FA (get_pass_pipeline level) (get_iteration_count level) program

/-- Does some function of the program still own a block with id 0 (the
entry block the IR builder creates)?  This is the well-formedness the
pipeline analysis of the SSA change flag rests on. -/
def hasEntryFunction (prog : IRProgram F) : Bool :=
  prog.functions.any (fun nf => nf.2.blocks.any (fun b => b.id = 0))

/-- From `IROptimizer::optimize`: `None` returns immediately, every
other level delegates to `run_passes` (which never fails). -/
def optimize [DecidableEq F] (FA : FloatArith F) (level : OptimizationLevel)
    (program : IRProgram F) : IRProgram F × Nat :=
  if level = .None then (program, 0) else run_passes FA level program

end Magolor

namespace Magpie

/-! ### Bytecode model and VM, from
`src/Magpie/MagpieRuntime/src/modules/bytecode.rs`

Modelling decisions for this section:

* `Fv` is the abstract float payload (`f64`), with its operations in a
  `FloatOps` record (`ofInt` stands for the `as f64` promotions).
* `Rc<RefCell<Vec<Val>>>` / `Rc<RefCell<HashMap<String, Val>>>` heap
  values are modelled by indices into per-state `arrays` / `objs` heaps,
  preserving the source's aliasing.
* `println!` output is recorded as a trace of events rather than
  formatted text.
* Rust panics (`unwrap` on an empty stack, out-of-range indexing,
  integer remainder with divisor zero, shift overflow, `stack.len() -
  argc` underflow) are the `abort` outcome; the VM's own
  `Err(String)` results are the `fail`/`err` outcome with the source's
  message. -/

/-- From `bytecode.rs` (`Op`). -/
inductive Op (Fv : Type) where
  | Const (i : Nat)
  | Int (n : Int)
  | Float (f : Fv)
  | True
  | False
  | Null
  | LoadLocal (s : Nat)
  | StoreLocal (s : Nat)
  | LoadGlobal (i : Nat)
  | StoreGlobal (i : Nat)
  | Add | Sub | Mul | Div | Mod | Neg
  | BitNot | BitAnd | BitOr | BitXor | Shl | Shr
  | Eq | NotEq | Lt | LtEq | Gt | GtEq
  | And | Or | Not
  | Jump (a : Nat)
  | JumpIfFalse (a : Nat)
  | JumpIfTrue (a : Nat)
  | Call (fi : Nat) (argc : Nat)
  | Return
  | ReturnVal
  | Pop | Dup
  | NewArray (n : Nat)
  | ArrayGet | ArraySet | ArrayLen
  | NewObject
  | GetField (i : Nat)
  | SetField (i : Nat)
  | Print | PrintInt | PrintStr
  | Inc | Dec
  | Halt
deriving Repr

/-- From `bytecode.rs` (`FnRef`). -/
structure FnRef where
  entry : Nat
  params : Nat
  locals : Nat
  name : String
  idx : Nat
deriving DecidableEq, Repr

/-- From `bytecode.rs` (`Val`); `Array`/`Obj` carry heap indices. -/
inductive Val (Fv : Type) where
  | Int (n : Int)
  | Float (f : Fv)
  | Bool (b : Bool)
  | Str (s : String)
  | Array (ref : Nat)
  | Obj (ref : Nat)
  | Fn (f : FnRef)
  | Null
deriving DecidableEq, Repr

/-- From `bytecode.rs` (`Module`). -/
structure Module (Fv : Type) where
  code : List (Op Fv)
  consts : List (Val Fv)
  globals : List String
  funcs : List FnRef
  func_map : List (String × Nat)
  entry : Nat
deriving Repr

/-- From `bytecode.rs` (`Frame`). -/
structure Frame where
  ret_ip : Nat
  base : Nat
deriving DecidableEq, Repr

/-- A `println!` event. -/
inductive OutEvent (Fv : Type) where
  | val (v : Val Fv)
  | int (n : Int)
  | str (s : String)
deriving Repr

/-- The VM state (`VM` fields plus the modelled heap and output). The
operand stack is bottom-first: `push` appends, `pop` takes the last
element.  The frame stack is top-first (`cons` pushes). -/
structure VMState (Fv : Type) where
  ip : Nat
  stack : List (Val Fv)
  frames : List Frame
  globals : List (Val Fv)
  arrays : List (List (Val Fv))
  objs : List (List (String × Val Fv))
  output : List (OutEvent Fv)
deriving Repr

/-- Abstract `f64` operations used by the VM dispatch loop. -/
structure FloatOps (Fv : Type) where
  fadd : Fv → Fv → Fv
  fsub : Fv → Fv → Fv
  fmul : Fv → Fv → Fv
  fdiv : Fv → Fv → Fv
  fneg : Fv → Fv
  feq : Fv → Fv → Bool
  fcomp : Fv → Fv → Option Ordering
  ofInt : Int → Fv

/-- Trivial `FloatOps` over `Unit` for running float-free programs. -/
def unitFloatOps : FloatOps Unit :=
  ⟨fun _ _ => (), fun _ _ => (), fun _ _ => (), fun _ _ => (),
   fun _ => (), fun _ _ => true, fun _ _ => some .eq, fun _ => ()⟩

/-- Outcome of one dispatch step. -/
inductive StepRes (Fv : Type) where
  | next (s : VMState Fv)
  | done (v : Val Fv) (s : VMState Fv)
  | fail (msg : String) (s : VMState Fv)
  | abort (msg : String)
deriving Repr

variable {Fv : Type}

/-- Push onto the operand stack. -/
def vpush (s : VMState Fv) (v : Val Fv) : VMState Fv :=
  { s with stack := s.stack ++ [v] }

/-- `self.stack.pop()`: take the top (last) element. -/
def vpop (stack : List (Val Fv)) : Option (Val Fv × List (Val Fv)) :=
  match stack.getLast? with
  | none => none
  | some v => some (v, stack.dropLast)

/-- From `Val::truthy`. -/
def truthy : Val Fv → Bool
  | .Bool b => b
  | .Null => false
  | .Int 0 => false
  | _ => true

/-- From `VM::add`. -/
def vmAdd (FO : FloatOps Fv) : Val Fv → Val Fv → Except String (Val Fv)
  | .Int x, .Int y => .ok (.Int (x + y))
  | .Float x, .Float y => .ok (.Float (FO.fadd x y))
  | .Int x, .Float y => .ok (.Float (FO.fadd (FO.ofInt x) y))
  | .Float x, .Int y => .ok (.Float (FO.fadd x (FO.ofInt y)))
  | .Str x, .Str y => .ok (.Str (x ++ y))
  | _, _ => .error "Type error in add"

/-- From `VM::sub`. -/
def vmSub (FO : FloatOps Fv) : Val Fv → Val Fv → Except String (Val Fv)
  | .Int x, .Int y => .ok (.Int (x - y))
  | .Float x, .Float y => .ok (.Float (FO.fsub x y))
  | .Int x, .Float y => .ok (.Float (FO.fsub (FO.ofInt x) y))
  | .Float x, .Int y => .ok (.Float (FO.fsub x (FO.ofInt y)))
  | _, _ => .error "Type error in sub"

/-- From `VM::mul`. -/
def vmMul (FO : FloatOps Fv) : Val Fv → Val Fv → Except String (Val Fv)
  | .Int x, .Int y => .ok (.Int (x * y))
  | .Float x, .Float y => .ok (.Float (FO.fmul x y))
  | .Int x, .Float y => .ok (.Float (FO.fmul (FO.ofInt x) y))
  | .Float x, .Int y => .ok (.Float (FO.fmul x (FO.ofInt y)))
  | _, _ => .error "Type error in mul"

/-- From `VM::div`: the integer case guards the zero divisor with the
`Division by zero` runtime error; float division is unguarded. -/
def vmDiv (FO : FloatOps Fv) : Val Fv → Val Fv → Except String (Val Fv)
  | .Int x, .Int y =>
      if y = 0 then .error "Division by zero" else .ok (.Int (Int.tdiv x y))
  | .Float x, .Float y => .ok (.Float (FO.fdiv x y))
  | .Int x, .Float y => .ok (.Float (FO.fdiv (FO.ofInt x) y))
  | .Float x, .Int y => .ok (.Float (FO.fdiv x (FO.ofInt y)))
  | _, _ => .error "Type error in div"

/-- From `VM::eq`. -/
def vmEq (FO : FloatOps Fv) : Val Fv → Val Fv → Bool
  | .Int x, .Int y => x = y
  | .Float x, .Float y => FO.feq x y
  | .Bool x, .Bool y => x = y
  | .Str x, .Str y => x = y
  | .Null, .Null => true
  | _, _ => false

/-- Rust `Ordering as i32`. -/
def ordToInt : Ordering → Int
  | .lt => -1
  | .eq => 0
  | .gt => 1

/-- From `VM::cmp` (`partial_cmp(..).unwrap_or(0)` on the float paths). -/
def vmComp (FO : FloatOps Fv) : Val Fv → Val Fv → Except String Int
  | .Int x, .Int y => .ok (ordToInt (compare x y))
  | .Float x, .Float y => .ok (((FO.fcomp x y).map ordToInt).getD 0)
  | .Int x, .Float y => .ok (((FO.fcomp (FO.ofInt x) y).map ordToInt).getD 0)
  | .Float x, .Int y => .ok (((FO.fcomp x (FO.ofInt y)).map ordToInt).getD 0)
  | _, _ => .error "Cannot compare"

/-- Replace-or-insert on the string-keyed field map of an object
(`HashMap::insert`). -/
def setAssoc (m : List (String × Val Fv)) (k : String) (v : Val Fv) :
    List (String × Val Fv) :=
  match m with
  | [] => [(k, v)]
  | (k', v') :: rest => if k' = k then (k, v) :: rest else (k', v') :: setAssoc rest k v

/-- Pop two operands (`b` first, then `a`) and push the result of a
binary helper, turning its `Err` into the VM's runtime error. -/
def binStep (s : VMState Fv) (f : Val Fv → Val Fv → Except String (Val Fv)) :
    StepRes Fv :=
  match vpop s.stack with
  | none => .abort "pop on empty stack"
  | some (b, st1) =>
    match vpop st1 with
    | none => .abort "pop on empty stack"
    | some (a, st2) =>
      match f a b with
      | .ok v => .next (vpush { s with stack := st2 } v)
      | .error m => .fail m { s with stack := st2 }

/-- Pop two operands and push a `Bool` comparison against zero of
`VM::cmp`'s result. -/
def cmpStep (FO : FloatOps Fv) (s : VMState Fv) (test : Int → Bool) : StepRes Fv :=
  match vpop s.stack with
  | none => .abort "pop on empty stack"
  | some (b, st1) =>
    match vpop st1 with
    | none => .abort "pop on empty stack"
    | some (a, st2) =>
      match vmComp FO a b with
      | .ok c => .next (vpush { s with stack := st2 } (.Bool (test c)))
      | .error m => .fail m { s with stack := st2 }

/-- Pop two integer operands for a bitwise operation, with the given
type-error message; `f` receives `a` then `b`. -/
def bitStep (s : VMState Fv) (msg : String) (f : Int → Int → StepRes Fv) : StepRes Fv :=
  match vpop s.stack with
  | none => .abort "pop on empty stack"
  | some (vb, st1) =>
    match vpop st1 with
    | none => .abort "pop on empty stack"
    | some (va, st2) =>
      match vb, va with
      | .Int b, .Int a => f a b
      | _, _ => .fail msg { s with stack := st2 }

/-- One dispatch step of `VM::run`. -/
def step (FO : FloatOps Fv) (M : Module Fv) (s : VMState Fv) : StepRes Fv :=
  if hip : s.ip < M.code.length then
    let op := M.code.get ⟨s.ip, hip⟩
    let s := { s with ip := s.ip + 1 }
    match op with
    | .Const i =>
      match M.consts.get? i with
      | some v => .next (vpush s v)
      | none => .abort "const index out of bounds"
    | .Int n => .next (vpush s (.Int n))
    | .Float f => .next (vpush s (.Float f))
    | .True => .next (vpush s (.Bool true))
    | .False => .next (vpush s (.Bool false))
    | .Null => .next (vpush s .Null)
    | .LoadLocal sl =>
      let bp := ((s.frames.head?).map (fun f => f.base)).getD 0
      match s.stack.get? (bp + sl) with
      | some v => .next (vpush s v)
      | none => .abort "local index out of bounds"
    | .StoreLocal sl =>
      let bp := ((s.frames.head?).map (fun f => f.base)).getD 0
      match vpop s.stack with
      | none => .abort "pop on empty stack"
      | some (v, st) =>
        let idx := bp + sl
        let st := if st.length ≤ idx then st ++ List.replicate (idx + 1 - st.length) .Null else st
        .next { s with stack := st.set idx v }
    | .LoadGlobal i =>
      match s.globals.get? i with
      | some v => .next (vpush s v)
      | none => .abort "global index out of bounds"
    | .StoreGlobal i =>
      match vpop s.stack with
      | none => .abort "pop on empty stack"
      | some (v, st) =>
        if i < s.globals.length then .next { s with stack := st, globals := s.globals.set i v }
        else .abort "global index out of bounds"
    | .Add => binStep s (vmAdd FO)
    | .Sub => binStep s (vmSub FO)
    | .Mul => binStep s (vmMul FO)
    | .Div => binStep s (vmDiv FO)
    | .Mod =>
      -- `let (Val::Int(b), Val::Int(a)) = (pop, pop) else Err`;
      -- the remainder itself is computed unguarded, so a zero divisor
      -- is a Rust panic, not a VM runtime error.
      match vpop s.stack with
      | none => .abort "pop on empty stack"
      | some (vb, st1) =>
        match vpop st1 with
        | none => .abort "pop on empty stack"
        | some (va, st2) =>
          match vb, va with
          | .Int b, .Int a =>
            if b = 0 then .abort "attempt to calculate the remainder with a divisor of zero"
            else .next (vpush { s with stack := st2 } (.Int (Int.tmod a b)))
          | _, _ => .fail "Mod requires ints" { s with stack := st2 }
    | .Neg =>
      match vpop s.stack with
      | none => .abort "pop on empty stack"
      | some (v, st) =>
        match v with
        | .Int n => .next (vpush { s with stack := st } (.Int (-n)))
        | .Float f => .next (vpush { s with stack := st } (.Float (FO.fneg f)))
        | _ => .fail "Cannot negate" { s with stack := st }
    | .BitNot =>
      match vpop s.stack with
      | none => .abort "pop on empty stack"
      | some (v, st) =>
        match v with
        | .Int n => .next (vpush { s with stack := st } (.Int (-n - 1)))
        | _ => .fail "BitNot requires int" { s with stack := st }
    | .BitAnd => bitStep s "BitAnd requires ints" (fun a b =>
        .next (vpush { s with stack := s.stack.dropLast.dropLast } (.Int (Int.land a b))))
    | .BitOr => bitStep s "BitOr requires ints" (fun a b =>
        .next (vpush { s with stack := s.stack.dropLast.dropLast } (.Int (Int.lor a b))))
    | .BitXor => bitStep s "BitXor requires ints" (fun a b =>
        .next (vpush { s with stack := s.stack.dropLast.dropLast } (.Int (Int.xor a b))))
    | .Shl => bitStep s "Shl requires ints" (fun a b =>
        if 0 ≤ b ∧ b < 64 then
          .next (vpush { s with stack := s.stack.dropLast.dropLast } (.Int (a * 2 ^ b.toNat)))
        else .abort "attempt to shift left with overflow")
    | .Shr => bitStep s "Shr requires ints" (fun a b =>
        if 0 ≤ b ∧ b < 64 then
          .next (vpush { s with stack := s.stack.dropLast.dropLast } (.Int (Int.fdiv a (2 ^ b.toNat))))
        else .abort "attempt to shift right with overflow")
    | .Eq =>
      match vpop s.stack with
      | none => .abort "pop on empty stack"
      | some (b, st1) =>
        match vpop st1 with
        | none => .abort "pop on empty stack"
        | some (a, st2) => .next (vpush { s with stack := st2 } (.Bool (vmEq FO a b)))
    | .NotEq =>
      match vpop s.stack with
      | none => .abort "pop on empty stack"
      | some (b, st1) =>
        match vpop st1 with
        | none => .abort "pop on empty stack"
        | some (a, st2) => .next (vpush { s with stack := st2 } (.Bool (!vmEq FO a b)))
    | .Lt => cmpStep FO s (fun c => c < 0)
    | .LtEq => cmpStep FO s (fun c => c ≤ 0)
    | .Gt => cmpStep FO s (fun c => 0 < c)
    | .GtEq => cmpStep FO s (fun c => 0 ≤ c)
    | .And =>
      match vpop s.stack with
      | none => .abort "pop on empty stack"
      | some (b, st1) =>
        match vpop st1 with
        | none => .abort "pop on empty stack"
        | some (a, st2) =>
          .next (vpush { s with stack := st2 } (.Bool (truthy a && truthy b)))
    | .Or =>
      match vpop s.stack with
      | none => .abort "pop on empty stack"
      | some (b, st1) =>
        match vpop st1 with
        | none => .abort "pop on empty stack"
        | some (a, st2) =>
          .next (vpush { s with stack := st2 } (.Bool (truthy a || truthy b)))
    | .Not =>
      match vpop s.stack with
      | none => .abort "pop on empty stack"
      | some (v, st) => .next (vpush { s with stack := st } (.Bool (!truthy v)))
    | .Jump a => .next { s with ip := a }
    | .JumpIfFalse a =>
      match vpop s.stack with
      | none => .abort "pop on empty stack"
      | some (v, st) =>
        .next { s with stack := st, ip := if truthy v then s.ip else a }
    | .JumpIfTrue a =>
      match vpop s.stack with
      | none => .abort "pop on empty stack"
      | some (v, st) =>
        .next { s with stack := st, ip := if truthy v then a else s.ip }
    | .Call fi argc =>
      match M.funcs.get? fi with
      | none => .abort "function index out of bounds"
      | some func =>
        if argc ≤ s.stack.length then
          .next { s with
            frames := ⟨s.ip, s.stack.length - argc⟩ :: s.frames,
            ip := func.entry }
        else .abort "attempt to subtract with overflow"
    | .Return =>
      (match s.frames with
       | f :: rest =>
         .next { s with stack := s.stack.take f.base ++ [.Null],
                        ip := f.ret_ip, frames := rest }
       | [] => .done .Null s)
    | .ReturnVal =>
      match vpop s.stack with
      | none => .abort "pop on empty stack"
      | some (ret, st) =>
        match s.frames with
        | f :: rest =>
          .next { s with stack := st.take f.base ++ [ret],
                         ip := f.ret_ip, frames := rest }
        | [] => .done ret { s with stack := st }
    | .Pop => .next { s with stack := s.stack.dropLast }
    | .Dup =>
      match s.stack.getLast? with
      | none => .abort "last on empty stack"
      | some v => .next (vpush s v)
    | .NewArray n =>
      if n ≤ s.stack.length then
        let arr := s.stack.drop (s.stack.length - n)
        let st := s.stack.take (s.stack.length - n)
        .next (vpush { s with stack := st, arrays := s.arrays ++ [arr] }
          (.Array s.arrays.length))
      else .abort "pop on empty stack"
    | .NewObject =>
      .next (vpush { s with objs := s.objs ++ [[]] } (.Obj s.objs.length))
    | .GetField fidx =>
      match M.consts.get? fidx with
      | none => .abort "const index out of bounds"
      | some (.Str field_name) =>
        (match vpop s.stack with
         | none => .abort "pop on empty stack"
         | some (obj, st) =>
           match obj with
           | .Obj i =>
             (match s.objs.get? i with
              | none => .abort "object ref out of bounds"
              | some m =>
                let v := ((m.find? (fun p => p.1 = field_name)).map (fun p => p.2)).getD .Null
                .next (vpush { s with stack := st } v))
           | .Array i =>
             if field_name = "length" then
               match s.arrays.get? i with
               | none => .abort "array ref out of bounds"
               | some arr => .next (vpush { s with stack := st } (.Int arr.length))
             else .fail "Cannot get field from non-object" { s with stack := st }
           | .Str str =>
             if field_name = "length" then
               .next (vpush { s with stack := st } (.Int str.length))
             else .fail "Cannot get field from non-object" { s with stack := st }
           | _ => .fail "Cannot get field from non-object" { s with stack := st })
      | some _ => .fail "Field name must be string" s
    | .SetField fidx =>
      match vpop s.stack with
      | none => .abort "pop on empty stack"
      | some (value, st1) =>
        match M.consts.get? fidx with
        | none => .abort "const index out of bounds"
        | some (.Str field_name) =>
          (match vpop st1 with
           | none => .abort "pop on empty stack"
           | some (obj_val, st2) =>
             match obj_val with
             | .Obj i =>
               (match s.objs.get? i with
                | none => .abort "object ref out of bounds"
                | some m =>
                  .next (vpush
                    { s with stack := st2, objs := s.objs.set i (setAssoc m field_name value) }
                    obj_val))
             | _ => .fail "Cannot set field on non-object" { s with stack := st2 })
        | some _ => .fail "Field name must be string" { s with stack := st1 }
    | .ArrayGet =>
      match vpop s.stack with
      | none => .abort "pop on empty stack"
      | some (idx_val, st1) =>
        match vpop st1 with
        | none => .abort "pop on empty stack"
        | some (container, st2) =>
          match container, idx_val with
          | .Array i, .Int idx =>
            (match s.arrays.get? i with
             | none => .abort "array ref out of bounds"
             | some arr =>
               if h : 0 ≤ idx ∧ idx.toNat < arr.length then
                 .next (vpush { s with stack := st2 } (arr.get ⟨idx.toNat, h.2⟩))
               else .abort "array index out of bounds")
          | .Obj i, .Str key =>
            (match s.objs.get? i with
             | none => .abort "object ref out of bounds"
             | some m =>
               let v := ((m.find? (fun p => p.1 = key)).map (fun p => p.2)).getD .Null
               .next (vpush { s with stack := st2 } v))
          | _, _ => .fail "Invalid index operation" { s with stack := st2 }
    | .ArraySet =>
      match vpop s.stack with
      | none => .abort "pop on empty stack"
      | some (val, st1) =>
        match vpop st1 with
        | none => .abort "pop on empty stack"
        | some (idx_val, st2) =>
          match vpop st2 with
          | none => .abort "pop on empty stack"
          | some (container, st3) =>
            match container, idx_val with
            | .Array i, .Int idx =>
              (match s.arrays.get? i with
               | none => .abort "array ref out of bounds"
               | some arr =>
                 if 0 ≤ idx ∧ idx.toNat < arr.length then
                   .next { s with stack := st3,
                                  arrays := s.arrays.set i (arr.set idx.toNat val) }
                 else .abort "array index out of bounds")
            | .Obj i, .Str key =>
              (match s.objs.get? i with
               | none => .abort "object ref out of bounds"
               | some m =>
                 .next { s with stack := st3, objs := s.objs.set i (setAssoc m key val) })
            | _, _ => .fail "Invalid index assignment" { s with stack := st3 }
    | .ArrayLen =>
      match vpop s.stack with
      | none => .abort "pop on empty stack"
      | some (v, st) =>
        match v with
        | .Array i =>
          (match s.arrays.get? i with
           | none => .abort "array ref out of bounds"
           | some arr => .next (vpush { s with stack := st } (.Int arr.length)))
        | _ => .fail "Not an array" { s with stack := st }
    | .Inc =>
      match vpop s.stack with
      | none => .abort "pop on empty stack"
      | some (v, st) =>
        match v with
        | .Int n => .next (vpush { s with stack := st } (.Int (n + 1)))
        | .Float f => .next (vpush { s with stack := st } (.Float (FO.fadd f (FO.ofInt 1))))
        | _ => .fail "Cannot increment" { s with stack := st }
    | .Dec =>
      match vpop s.stack with
      | none => .abort "pop on empty stack"
      | some (v, st) =>
        match v with
        | .Int n => .next (vpush { s with stack := st } (.Int (n - 1)))
        | .Float f => .next (vpush { s with stack := st } (.Float (FO.fsub f (FO.ofInt 1))))
        | _ => .fail "Cannot decrement" { s with stack := st }
    | .Print =>
      match vpop s.stack with
      | none => .abort "pop on empty stack"
      | some (v, st) =>
        .next (vpush { s with stack := st, output := s.output ++ [.val v] } .Null)
    | .PrintInt =>
      match vpop s.stack with
      | none => .abort "pop on empty stack"
      | some (v, st) =>
        match v with
        | .Int n => .next (vpush { s with stack := st, output := s.output ++ [.int n] } .Null)
        | _ => .fail "Expected int" { s with stack := st }
    | .PrintStr =>
      match vpop s.stack with
      | none => .abort "pop on empty stack"
      | some (v, st) =>
        match v with
        | .Str str => .next (vpush { s with stack := st, output := s.output ++ [.str str] } .Null)
        | _ => .fail "Expected string" { s with stack := st }
    | .Halt => .done .Null s
  else .fail "IP out of bounds" s

/-- Final outcome of a VM run: the `Ok` value, the `Err` message, or a
Rust panic, each with the state at that moment. -/
inductive RunEnd (Fv : Type) where
  | ok (v : Val Fv) (s : VMState Fv)
  | err (msg : String) (s : VMState Fv)
  | abort (msg : String)
deriving Repr

/-- The dispatch loop, with fuel (`none` = ran out of fuel, so every
`some` result is an actual outcome of the source's unbounded loop). -/
def runGo (FO : FloatOps Fv) (M : Module Fv) : Nat → VMState Fv → Option (RunEnd Fv)
  | 0, _ => none
  | fuel + 1, s =>
    match step FO M s with
    | .next s' => runGo FO M fuel s'
    | .done v s' => some (.ok v s')
    | .fail m s' => some (.err m s')
    | .abort m => some (.abort m)

/-- Initial VM state of `VM::new` + the `self.ip = entry` of `run`. -/
def initState (M : Module Fv) : VMState Fv :=
  ⟨M.entry, [], [], List.replicate M.globals.length .Null, [], [], []⟩

/-- From `VM::run`. -/
def vmRun (FO : FloatOps Fv) (M : Module Fv) (fuel : Nat) : Option (RunEnd Fv) :=
  runGo FO M fuel (initState M)

end Magpie

namespace Magolor

/-! ### Concrete inputs used by the theorems below -/

/-- A straight-line `main`: `r0 ← 5; r1 ← r0 + 1; return r1`. -/
def dceExampleFunc : IRFunction Unit :=
  { name := "main", params := [], return_type := .I32,
    blocks := [⟨0,
      [.Move 0 (.Constant (.I32 5)),
       .Add 1 (.Register 0) (.Constant (.I32 1)) .I32,
       .Return (some (.Register 1))],
      [], [], [], []⟩],
    local_count := 0, register_count := 2,
    is_inline := false, is_pure := false, attributes := {} }

/-- Integer-backed instantiation of the abstract float operations, used
only to build witnesses (the checked properties use the operations
abstractly). -/
def intFloats : FloatArith Int :=
  ⟨(· + ·), (· - ·), (· * ·), (fun a b => Int.tdiv a b),
   (· + ·), (· - ·), (· * ·), (fun a b => Int.tdiv a b),
   (fun b => b = 0), (fun b => b = 0)⟩

/-- The empty IR program. -/
def emptyProgram : IRProgram Unit := ⟨[], [], [], []⟩

/-- A program whose sole function has one non-empty block, but that
block's id is 1 (not 0) and the function is marked `no_inline`.  Used to
exercise the optimizer driver's early exit. -/
def strayBlockProgram : IRProgram Unit :=
  ⟨[("f",
     { name := "f", params := [], return_type := .Void,
       blocks := [⟨1, [.Return none], [], [], [], []⟩],
       local_count := 0, register_count := 0,
       is_inline := false, is_pure := false,
       attributes := { no_inline := true } })],
   [], [], []⟩

/-- A well-formed one-function program: `main` with a single block of
id 0 containing `return`. -/
def entryBlockProgram : IRProgram Unit :=
  ⟨[("main",
     { name := "main", params := [], return_type := .Void,
       blocks := [⟨0, [.Return none], [], [], [], []⟩],
       local_count := 0, register_count := 0,
       is_inline := false, is_pure := false, attributes := {} })],
   [], [], []⟩

/-- A two-register function whose live ranges overlap:
`r0 ← 1; r1 ← r0`. -/
def allocExampleFunc : IRFunction Unit :=
  { name := "f", params := [], return_type := .I32,
    blocks := [⟨0,
      [.Move 0 (.Constant (.I32 1)),
       .Move 1 (.Register 0)],
      [], [], [], []⟩],
    local_count := 0, register_count := 2,
    is_inline := false, is_pure := false, attributes := {} }

end Magolor

namespace Magpie

/-- The module shape the bytecode compiler emits for a program with
`main`: sentinel `Call(main, 0); Halt` at offsets 0–1, then `main`'s
body (here `Int 7; ReturnVal`). -/
def haltModule : Module Unit :=
  { code := [.Call 0 0, .Halt, .Int 7, .ReturnVal],
    consts := [], globals := [],
    funcs := [⟨2, 0, 0, "main", 0⟩],
    func_map := [("main", 0)], entry := 0 }

/-- A module executing `1 % 0`. -/
def modZeroModule : Module Unit :=
  { code := [.Int 1, .Int 0, .Mod, .Halt],
    consts := [], globals := [], funcs := [], func_map := [], entry := 0 }

/-- A module executing `1 / 0`. -/
def divZeroModule : Module Unit :=
  { code := [.Int 1, .Int 0, .Div, .Halt],
    consts := [], globals := [], funcs := [], func_map := [], entry := 0 }

end Magpie

namespace Magolor

/-! ## Theorems -/

/-- C1.  The claim is false of the code and true of the spec's intent:
dead-code elimination is NOT semantics-preserving.  The live-register
sweep marks only the direct operands of the effectful instructions and
never closes transitively, so in `r0 ← 5; r1 ← r0 + 1; return r1` only
`r1` is live, the initializing `Move` of `r0` is deleted, and the
surviving `Add` reads an undefined register: the observable return of
`main` changes from 6 to undefined.  This theorem exhibits the rewrite
and the change of observable behaviour on that function. -/
theorem dce_removes_needed_def_and_changes_semantics :
    (eliminate_dead_code dceExampleFunc).1.blocks.map (fun b => b.instructions) =
      [[.Add 1 (.Register 0) (.Constant (.I32 1)) .I32,
        .Return (some (.Register 1))]] ∧
    (eliminate_dead_code dceExampleFunc).2 = true ∧
    evalFunction dceExampleFunc = some 6 ∧
    evalFunction (eliminate_dead_code dceExampleFunc).1 = none := by
  refine ⟨rfl, rfl, rfl, rfl⟩

/-- C2.  Of the listed single-instruction rewrites, the executed code
performs `x+0`, `x-0`, `x*0`, `x/1`, `x&0`, `x|0` and `x^0`, but the
`x*1 → x`, `x*2^k → x<<k` and `x^x → 0` rewrites never fire: their
match arms are shadowed by the irrefutable `x*0` / `x^0` arms, so
`try_pattern_match_single` returns `None` on those inputs (the last
three conjuncts), diverging from the behaviour the source's own
comments describe (shown by the `intended` contrasts). -/
theorem peephole_single_rewrites_and_shadowed_arms :
    try_pattern_match_single (F := Unit) (.Add 0 (.Register 1) (.Constant (.I32 0)) .I32) =
      some (.Move 0 (.Register 1)) ∧
    try_pattern_match_single (F := Unit) (.Sub 0 (.Register 1) (.Constant (.I32 0)) .I32) =
      some (.Move 0 (.Register 1)) ∧
    try_pattern_match_single (F := Unit) (.Mul 0 (.Register 1) (.Constant (.I32 0)) .I32) =
      some (.Move 0 (.Constant (.I32 0))) ∧
    try_pattern_match_single (F := Unit) (.Div 0 (.Register 1) (.Constant (.I32 1)) .I32) =
      some (.Move 0 (.Register 1)) ∧
    try_pattern_match_single (F := Unit) (.And 0 (.Register 1) (.Constant (.I32 0))) =
      some (.Move 0 (.Constant (.I32 0))) ∧
    try_pattern_match_single (F := Unit) (.Or 0 (.Register 1) (.Constant (.I32 0))) =
      some (.Move 0 (.Register 1)) ∧
    try_pattern_match_single (F := Unit) (.Xor 0 (.Register 1) (.Constant (.I32 0))) =
      some (.Move 0 (.Register 1)) ∧
    try_pattern_match_single (F := Unit) (.Mul 0 (.Register 1) (.Constant (.I32 1)) .I32) =
      none ∧
    try_pattern_match_single (F := Unit) (.Mul 0 (.Register 1) (.Constant (.I32 4)) .I32) =
      none ∧
    try_pattern_match_single (F := Unit) (.Xor 0 (.Register 1) (.Register 1)) = none ∧
    try_pattern_match_single_intended (F := Unit)
      (.Mul 0 (.Register 1) (.Constant (.I32 1)) .I32) = some (.Move 0 (.Register 1)) ∧
    try_pattern_match_single_intended (F := Unit)
      (.Mul 0 (.Register 1) (.Constant (.I32 4)) .I32) =
        some (.Shl 0 (.Register 1) (.Constant (.I32 2))) ∧
    try_pattern_match_single_intended (F := Unit) (.Xor 0 (.Register 1) (.Register 1)) =
      some (.Move 0 (.Constant (.I32 0))) := by
  refine ⟨rfl, rfl, rfl, rfl, rfl, rfl, rfl, rfl, rfl, rfl, ?_, ?_, ?_⟩ <;>
    simp [try_pattern_match_single_intended, is_power_of_two, isZeroIntConst,
          isOneIntConst, trailing_zeros] <;> decide

/-- C4 counterexample.  The claim quantifies over "literal constants of
the same numeric type", but an `Add` of two `I8` literals — a numeric
type of the IR — is not folded: `fold_add` only has arms for `I32`,
`I64`, `F32` and `F64`. -/
theorem fold_instruction_skips_i8 :
    fold_instruction unitFloats
      (.Add 0 (.Constant (.I8 1)) (.Constant (.I8 2)) .I8) = none := rfl

/-- C4 as amended: constant folding replaces every `Add`/`Sub`/`Mul`/
`Div` whose operands are literal constants of the same numeric type
among `I32`, `I64`, `F32`, `F64` with a `Move` of the evaluated
constant, the folded integer constant equals the spec-side wrapping
evaluation, an integer or float `Div` with a zero right literal is left
untouched, and `I8` pairs and mixed-width pairs are left untouched. -/
theorem fold_instruction_amended {F : Type} (FA : FloatArith F)
    (dst : Nat) (ty : IRType) (a b : Int) :
    (fold_instruction FA (.Add dst (.Constant (.I32 a)) (.Constant (.I32 b)) ty) =
        some (.Move dst (.Constant (.I32 (specWrappingEval 32 0 a b)))) ∧
     fold_instruction FA (.Sub dst (.Constant (.I32 a)) (.Constant (.I32 b)) ty) =
        some (.Move dst (.Constant (.I32 (specWrappingEval 32 1 a b)))) ∧
     fold_instruction FA (.Mul dst (.Constant (.I32 a)) (.Constant (.I32 b)) ty) =
        some (.Move dst (.Constant (.I32 (specWrappingEval 32 2 a b)))) ∧
     fold_instruction FA (.Add dst (.Constant (.I64 a)) (.Constant (.I64 b)) ty) =
        some (.Move dst (.Constant (.I64 (specWrappingEval 64 0 a b)))) ∧
     fold_instruction FA (.Sub dst (.Constant (.I64 a)) (.Constant (.I64 b)) ty) =
        some (.Move dst (.Constant (.I64 (specWrappingEval 64 1 a b)))) ∧
     fold_instruction FA (.Mul dst (.Constant (.I64 a)) (.Constant (.I64 b)) ty) =
        some (.Move dst (.Constant (.I64 (specWrappingEval 64 2 a b))))) ∧
    ((b ≠ 0 →
      fold_instruction FA (.Div dst (.Constant (.I32 a)) (.Constant (.I32 b)) ty) =
        some (.Move dst (.Constant (.I32 (specWrappingEval 32 3 a b)))) ∧
      fold_instruction FA (.Div dst (.Constant (.I64 a)) (.Constant (.I64 b)) ty) =
        some (.Move dst (.Constant (.I64 (specWrappingEval 64 3 a b))))) ∧
     fold_instruction FA (.Div dst (.Constant (.I32 a)) (.Constant (.I32 0)) ty) = none ∧
     fold_instruction FA (.Div dst (.Constant (.I64 a)) (.Constant (.I64 0)) ty) = none ∧
     (∀ x y : F, FA.isZero32 y = true →
        fold_instruction FA (.Div dst (.Constant (.F32 x)) (.Constant (.F32 y)) ty) = none) ∧
     (∀ x y : F, FA.isZero64 y = true →
        fold_instruction FA (.Div dst (.Constant (.F64 x)) (.Constant (.F64 y)) ty) = none)) ∧
    (fold_instruction FA (.Add dst (.Constant (.I8 a)) (.Constant (.I8 b)) ty) = none ∧
     fold_instruction FA (.Add dst (.Constant (.I16 a)) (.Constant (.I16 b)) ty) = none ∧
     fold_instruction FA (.Add dst (.Constant (.I32 a)) (.Constant (.I64 b)) ty) = none) := by
  refine ⟨⟨rfl, rfl, rfl, rfl, rfl, rfl⟩,
          ⟨fun hb => ⟨?_, ?_⟩, ?_, ?_, fun x y hy => ?_, fun x y hy => ?_⟩,
          ⟨rfl, rfl, rfl⟩⟩
  · simp [fold_instruction, fold_div, hb, specWrappingEval, wrapping_div32]
  · simp [fold_instruction, fold_div, hb, specWrappingEval, wrapping_div64]
  · simp [fold_instruction, fold_div]
  · simp [fold_instruction, fold_div]
  · simp [fold_instruction, fold_div, hy]
  · simp [fold_instruction, fold_div, hy]

/-- C4 witness: the amended theorem applied at `I32` inputs
`2147483647 + 1` (wrapping to `-2147483648`), `7 / 2` and a zero-divisor
`Div` that stays untouched, using the integer-backed float operations
for the float-zero branch. -/
theorem fold_instruction_amended_witness :
    fold_instruction intFloats
      (.Add 0 (.Constant (.I32 2147483647)) (.Constant (.I32 1)) .I32) =
        some (.Move 0 (.Constant (.I32 (-2147483648)))) ∧
    (7 : Int) ≠ 0 ∧
    fold_instruction intFloats
      (.Div 0 (.Constant (.I32 22)) (.Constant (.I32 7)) .I32) =
        some (.Move 0 (.Constant (.I32 3))) ∧
    fold_instruction intFloats
      (.Div 0 (.Constant (.I32 22)) (.Constant (.I32 0)) .I32) = none ∧
    intFloats.isZero32 0 = true ∧
    fold_instruction intFloats
      (.Div 0 (.Constant (.F32 5)) (.Constant (.F32 0)) .I32) = none := by
  have h7 : (7 : Int) ≠ 0 := by decide
  have hz : intFloats.isZero32 0 = true := by decide
  refine ⟨?_, h7, ?_, ?_, hz, ?_⟩
  · have h := (fold_instruction_amended intFloats 0 .I32 2147483647 1).1.1
    have hnum : specWrappingEval 32 0 2147483647 1 = -2147483648 := by decide
    rw [h, hnum]
  · have h := ((fold_instruction_amended intFloats 0 .I32 22 7).2.1.1 h7).1
    have hnum : specWrappingEval 32 3 22 7 = 3 := by decide
    rw [h, hnum]
  · exact (fold_instruction_amended intFloats 0 .I32 22 0).2.1.2.1
  · exact (fold_instruction_amended intFloats 0 .I32 5 0).2.1.2.2.2.1 5 0 hz

end Magolor

namespace Magpie

/-- Popping a stack written as `st ++ [v]` yields `v` and `st`. -/
theorem vpop_concat {Fv : Type} (st : List (Val Fv)) (v : Val Fv) :
    vpop (st ++ [v]) = some (v, st) := by
  simp [vpop, List.getLast?_concat, List.dropLast_concat]

/-- Two-element tail append, the shape the binary-operation proofs pop
through. -/
theorem append_pair_assoc {Fv : Type} (st : List (Val Fv)) (a b : Val Fv) :
    st ++ [a, b] = (st ++ [a]) ++ [b] := by simp

/-- C9.  `Op::Mod` with two integer operands is total only when the
divisor is nonzero: with `b ≠ 0` it pushes the truncated remainder; with
`b = 0` the unguarded Rust `%` panics (modelled `abort`), which is NOT a
VM runtime error — unlike `Op::Div`, whose integer zero-divisor branch
returns the `Division by zero` runtime error; `Op::Mod`'s only guarded
error is the non-integer-operand case (`Mod requires ints`). -/
theorem vm_mod_total_only_for_nonzero_divisor :
    (∀ (Fv : Type) (FO : FloatOps Fv) (M : Module Fv) (s : VMState Fv)
       (st : List (Val Fv)) (a b : Int),
       M.code.get? s.ip = some .Mod → s.stack = st ++ [.Int a, .Int b] → b ≠ 0 →
       step FO M s = .next { s with ip := s.ip + 1, stack := st ++ [.Int (Int.tmod a b)] })
    ∧ (∀ (Fv : Type) (FO : FloatOps Fv) (M : Module Fv) (s : VMState Fv)
       (st : List (Val Fv)) (a : Int),
       M.code.get? s.ip = some .Mod → s.stack = st ++ [.Int a, .Int 0] →
       step FO M s = .abort "attempt to calculate the remainder with a divisor of zero")
    ∧ (∀ (Fv : Type) (FO : FloatOps Fv) (M : Module Fv) (s : VMState Fv)
       (st : List (Val Fv)) (a : Int),
       M.code.get? s.ip = some .Div → s.stack = st ++ [.Int a, .Int 0] →
       step FO M s = .fail "Division by zero" { s with ip := s.ip + 1, stack := st })
    ∧ (∀ (Fv : Type) (FO : FloatOps Fv) (M : Module Fv) (s : VMState Fv)
       (st : List (Val Fv)) (b : Int),
       M.code.get? s.ip = some .Mod → s.stack = st ++ [.Null, .Int b] →
       step FO M s = .fail "Mod requires ints" { s with ip := s.ip + 1, stack := st }) := by
  refine ⟨?_, ?_, ?_, ?_⟩
  · intro Fv FO M s st a b hcode hstack hb
    rcases List.get?_eq_some.mp hcode with ⟨hip, hget⟩
    have hget' : M.code.get ⟨s.ip, hip⟩ = _ := hget
    unfold step
    rw [dif_pos hip]
    simp only [hget', hstack, append_pair_assoc, vpop_concat]
    rw [if_neg hb]
    rfl
  · intro Fv FO M s st a hcode hstack
    rcases List.get?_eq_some.mp hcode with ⟨hip, hget⟩
    have hget' : M.code.get ⟨s.ip, hip⟩ = _ := hget
    unfold step
    rw [dif_pos hip]
    simp only [hget', hstack, append_pair_assoc, vpop_concat]
    rfl
  · intro Fv FO M s st a hcode hstack
    rcases List.get?_eq_some.mp hcode with ⟨hip, hget⟩
    have hget' : M.code.get ⟨s.ip, hip⟩ = _ := hget
    unfold step
    rw [dif_pos hip]
    simp only [hget', hstack, append_pair_assoc]
    simp only [binStep, vpop_concat, vmDiv]
    rfl
  · intro Fv FO M s st b hcode hstack
    rcases List.get?_eq_some.mp hcode with ⟨hip, hget⟩
    have hget' : M.code.get ⟨s.ip, hip⟩ = _ := hget
    unfold step
    rw [dif_pos hip]
    simp only [hget', hstack, append_pair_assoc, vpop_concat]

/-- C9 witness: the theorem applied to the concrete modules `1 % 0`
(Rust panic, not a runtime error), `1 / 0` (runtime error) and a
well-typed `7 % 3`. -/
theorem vm_mod_witness :
    step unitFloatOps modZeroModule ⟨2, [.Int 1, .Int 0], [], [], [], [], []⟩ =
      .abort "attempt to calculate the remainder with a divisor of zero" ∧
    step unitFloatOps divZeroModule ⟨2, [.Int 1, .Int 0], [], [], [], [], []⟩ =
      .fail "Division by zero" ⟨3, [], [], [], [], [], []⟩ ∧
    step unitFloatOps modZeroModule ⟨2, [.Int 7, .Int 3], [], [], [], [], []⟩ =
      .next ⟨3, [.Int 1], [], [], [], [], []⟩ ∧
    vmRun unitFloatOps modZeroModule 10 =
      some (.abort "attempt to calculate the remainder with a divisor of zero") ∧
    vmRun unitFloatOps divZeroModule 10 =
      some (.err "Division by zero" ⟨3, [], [], [], [], [], []⟩) := by
  refine ⟨?_, ?_, ?_, rfl, rfl⟩
  · exact vm_mod_total_only_for_nonzero_divisor.2.1 Unit unitFloatOps modZeroModule
      ⟨2, [.Int 1, .Int 0], [], [], [], [], []⟩ [] 1 rfl rfl
  · exact vm_mod_total_only_for_nonzero_divisor.2.2.1 Unit unitFloatOps divZeroModule
      ⟨2, [.Int 1, .Int 0], [], [], [], [], []⟩ [] 1 rfl rfl
  · exact vm_mod_total_only_for_nonzero_divisor.1 Unit unitFloatOps modZeroModule
      ⟨2, [.Int 7, .Int 3], [], [], [], [], []⟩ [] 7 3 rfl rfl (by decide)

/-- C6.  `Call(fi, argc)` pushes a frame whose base is
`stack.len() - argc` and whose saved return offset is the index after
the `Call`, then jumps to `funcs[fi].entry`; `Return`/`ReturnVal` with a
non-empty frame stack pop the top frame, truncate the operand stack to
its base, push the return value (`Null` for a bare `Return`), and
restore `ip` to the frame's saved return offset. -/
theorem vm_call_return_frame_discipline :
    (∀ (Fv : Type) (FO : FloatOps Fv) (M : Module Fv) (s : VMState Fv)
       (fi argc : Nat) (func : FnRef),
       M.code.get? s.ip = some (.Call fi argc) →
       M.funcs.get? fi = some func →
       argc ≤ s.stack.length →
       step FO M s = .next { s with
         ip := func.entry
         frames := ⟨s.ip + 1, s.stack.length - argc⟩ :: s.frames })
    ∧ (∀ (Fv : Type) (FO : FloatOps Fv) (M : Module Fv) (s : VMState Fv)
       (f : Frame) (rest : List Frame),
       M.code.get? s.ip = some .Return → s.frames = f :: rest →
       step FO M s = .next { s with
         ip := f.ret_ip
         frames := rest
         stack := s.stack.take f.base ++ [.Null] })
    ∧ (∀ (Fv : Type) (FO : FloatOps Fv) (M : Module Fv) (s : VMState Fv)
       (f : Frame) (rest : List Frame) (st : List (Val Fv)) (v : Val Fv),
       M.code.get? s.ip = some .ReturnVal → s.frames = f :: rest → s.stack = st ++ [v] →
       step FO M s = .next { s with
         ip := f.ret_ip
         frames := rest
         stack := st.take f.base ++ [v] }) := by
  refine ⟨?_, ?_, ?_⟩
  · intro Fv FO M s fi argc func hcode hfunc hargc
    rcases List.get?_eq_some.mp hcode with ⟨hip, hget⟩
    have hget' : M.code.get ⟨s.ip, hip⟩ = _ := hget
    unfold step
    rw [dif_pos hip]
    simp only [hget', hfunc]
    rw [if_pos hargc]
  · intro Fv FO M s f rest hcode hframes
    rcases List.get?_eq_some.mp hcode with ⟨hip, hget⟩
    have hget' : M.code.get ⟨s.ip, hip⟩ = _ := hget
    unfold step
    rw [dif_pos hip]
    simp only [hget', hframes]
  · intro Fv FO M s f rest st v hcode hframes hstack
    rcases List.get?_eq_some.mp hcode with ⟨hip, hget⟩
    have hget' : M.code.get ⟨s.ip, hip⟩ = _ := hget
    unfold step
    rw [dif_pos hip]
    simp only [hget', hframes, hstack, vpop_concat]

/-- C6 witness: the theorem applied to the compiled-`main` module's
entry `Call(0, 0)` and to its `ReturnVal`. -/
theorem vm_call_return_witness :
    step unitFloatOps haltModule ⟨0, [], [], [], [], [], []⟩ =
      .next ⟨2, [], [⟨1, 0⟩], [], [], [], []⟩ ∧
    step unitFloatOps haltModule ⟨3, [.Int 7], [⟨1, 0⟩], [], [], [], []⟩ =
      .next ⟨1, [.Int 7], [], [], [], [], []⟩ := by
  constructor
  · exact vm_call_return_frame_discipline.1 Unit unitFloatOps haltModule
      ⟨0, [], [], [], [], [], []⟩ 0 0 ⟨2, 0, 0, "main", 0⟩ rfl rfl (by decide)
  · exact vm_call_return_frame_discipline.2.2 Unit unitFloatOps haltModule
      ⟨3, [.Int 7], [⟨1, 0⟩], [], [], [], []⟩ ⟨1, 0⟩ [] [] (.Int 7) rfl rfl rfl

/-- C3 counterexample.  A successful (`Ok`) run whose `Halt` executes
with a non-empty operand stack: the compiled-`main` shape
`Call(main,0); Halt; [Int 7; ReturnVal]` returns `Ok(Null)` while the
stack still holds main's return value `7` at the `Halt`. -/
theorem vm_stack_nonempty_at_halt :
    vmRun unitFloatOps haltModule 10 =
      some (.ok .Null ⟨2, [.Int 7], [], [], [], [], []⟩) ∧
    ([Val.Int 7] : List (Val Unit)) ≠ [] := by
  exact ⟨rfl, by simp⟩

/-- C3 as amended: at `Halt` after a successful run of a compiled
module the operand stack is not empty but holds exactly the return
value of `main`: the entry `Call(fi, 0)` on the empty initial stack
pushes the frame `⟨1, 0⟩`, and a `Return`/`ReturnVal` executed on that
single base-0 frame leaves exactly one value — the returned one — on
the stack, with `ip` restored to 1 (the `Halt`). -/
theorem vm_halt_stack_holds_main_return :
    (∀ (Fv : Type) (FO : FloatOps Fv) (M : Module Fv) (fi : Nat) (func : FnRef),
       M.entry = 0 → M.code.get? 0 = some (.Call fi 0) → M.funcs.get? fi = some func →
       step FO M (initState M) =
         .next { initState M with ip := func.entry, frames := [⟨1, 0⟩] })
    ∧ (∀ (Fv : Type) (FO : FloatOps Fv) (M : Module Fv) (s : VMState Fv)
       (rip : Nat) (st : List (Val Fv)) (v : Val Fv),
       M.code.get? s.ip = some .ReturnVal → s.frames = [⟨rip, 0⟩] → s.stack = st ++ [v] →
       step FO M s = .next { s with ip := rip, frames := [], stack := [v] })
    ∧ (∀ (Fv : Type) (FO : FloatOps Fv) (M : Module Fv) (s : VMState Fv) (rip : Nat),
       M.code.get? s.ip = some .Return → s.frames = [⟨rip, 0⟩] →
       step FO M s = .next { s with ip := rip, frames := [], stack := [.Null] }) := by
  refine ⟨?_, ?_, ?_⟩
  · intro Fv FO M fi func hentry hcode hfunc
    have h := vm_call_return_frame_discipline.1 Fv FO M (initState M) fi 0 func
      (by simpa [initState, hentry] using hcode) hfunc (by simp)
    simpa [initState, hentry] using h
  · intro Fv FO M s rip st v hcode hframes hstack
    have h := vm_call_return_frame_discipline.2.2 Fv FO M s ⟨rip, 0⟩ [] st v
      hcode hframes hstack
    simpa using h
  · intro Fv FO M s rip hcode hframes
    have h := vm_call_return_frame_discipline.2.1 Fv FO M s ⟨rip, 0⟩ [] hcode hframes
    simpa using h

/-- C3 witness: the amended theorem applied to the concrete compiled
module (`Call(0,0)` from the initial state, then the `ReturnVal` on the
entry frame leaving exactly `[Int 7]` at the `Halt`). -/
theorem vm_halt_stack_witness :
    step unitFloatOps haltModule (initState haltModule) =
      .next { initState haltModule with ip := 2, frames := [⟨1, 0⟩] } ∧
    step unitFloatOps haltModule ⟨3, [.Int 7], [⟨1, 0⟩], [], [], [], []⟩ =
      .next ⟨1, [.Int 7], [], [], [], [], []⟩ := by
  constructor
  · exact vm_halt_stack_holds_main_return.1 Unit unitFloatOps haltModule 0
      ⟨2, 0, 0, "main", 0⟩ rfl rfl rfl
  · exact vm_halt_stack_holds_main_return.2.1 Unit unitFloatOps haltModule
      ⟨3, [.Int 7], [⟨1, 0⟩], [], [], [], []⟩ 1 [] (.Int 7) rfl rfl rfl

end Magpie

namespace Magolor

/-- The driver loop performs at most `n` outer iterations with `n` fuel. -/
theorem runPassesGo_le {F : Type} [DecidableEq F] (FA : FloatArith F)
    (passes : List OptPass) :
    ∀ (n : Nat) (program : IRProgram F), (runPassesGo FA passes n program).2 ≤ n := by
  intro n
  induction n with
  | zero => intro program; simp [runPassesGo]
  | succ k ih =>
    intro program
    simp only [runPassesGo]
    by_cases h : (runAllPasses FA passes program).2
    · simp only [h, if_true]
      exact Nat.succ_le_succ (ih _)
    · simp only [h]
      simp

/-- C8.  The optimizer pipeline terminates on every input: the driver
performs at most the level's iteration cap of outer iterations (1 at
Basic, 3 at Aggressive, 5 at Maximum, 0 at None), and an iteration in
which no pass reports a change is the last one performed. -/
theorem optimizer_terminates_within_cap :
    (∀ (F : Type) [DecidableEq F] (FA : FloatArith F) (level : OptimizationLevel)
       (program : IRProgram F),
       (optimize FA level program).2 ≤ get_iteration_count level)
    ∧ get_iteration_count .None = 0
    ∧ get_iteration_count .Basic = 1
    ∧ get_iteration_count .Aggressive = 3
    ∧ get_iteration_count .Maximum = 5
    ∧ (∀ (F : Type) [DecidableEq F] (FA : FloatArith F) (passes : List OptPass)
       (program : IRProgram F) (n : Nat),
       (runAllPasses FA passes program).2 = false →
       runPassesGo FA passes (n + 1) program = ((runAllPasses FA passes program).1, 1)) := by
  refine ⟨?_, rfl, rfl, rfl, rfl, ?_⟩
  · intro F _ FA level program
    unfold optimize
    by_cases h : level = .None
    · simp [h, get_iteration_count]
    · simp only [h, if_false]
      exact runPassesGo_le FA _ _ _
  · intro F _ FA passes program n h
    simp [runPassesGo, h]

/-- C8 witness: on the empty program no pass reports a change, so the
Basic pipeline performs exactly one iteration and stops (and the cap
equalities instantiate). -/
theorem optimizer_terminates_witness :
    (optimize unitFloats .Basic emptyProgram).2 ≤ get_iteration_count .Basic ∧
    (runAllPasses unitFloats (get_pass_pipeline .Basic) emptyProgram).2 = false ∧
    runPassesGo unitFloats (get_pass_pipeline .Basic) 1 emptyProgram =
      (emptyProgram, 1) := by
  have hfalse : (runAllPasses unitFloats (get_pass_pipeline .Basic) emptyProgram).2 = false :=
    rfl
  refine ⟨optimizer_terminates_within_cap.1 Unit unitFloats .Basic emptyProgram,
          hfalse, ?_⟩
  have h := optimizer_terminates_within_cap.2.2.2.2.2 Unit unitFloats
    (get_pass_pipeline .Basic) emptyProgram 0 hfalse
  simpa using h

/-! ### Dominator-fixpoint lemmas (claim C7) -/

/-- `getD` through `set` at a different index. -/
theorem getD_set_ne {α : Type} (l : List α) (i j : Nat) (a d : α) (h : i ≠ j) :
    (l.set i a).getD j d = l.getD j d := by
  simp [List.getD_eq_getElem?_getD, List.getElem?_set_ne h]

/-- Membership in a fold of membership filters. -/
theorem mem_interFold (doms : List (List Nat)) (qs : List Nat) :
    ∀ (init : List Nat) (x : Nat),
    (x ∈ qs.foldl (fun acc p => acc.filter (fun y => y ∈ doms.getD p [])) init ↔
      x ∈ init ∧ ∀ p ∈ qs, x ∈ doms.getD p []) := by
  induction qs with
  | nil => intro init x; simp
  | cons q qs ih =>
    intro init x
    rw [List.foldl_cons, ih]
    simp only [List.mem_filter, List.forall_mem_cons, decide_eq_true_eq]
    tauto

/-- Membership in the intersection fold. -/
theorem mem_domInter (doms : List (List Nat)) (p0 : Nat) (rest : List Nat) (x : Nat) :
    x ∈ domInter doms p0 rest ↔
      x ∈ doms.getD p0 [] ∧ ∀ p ∈ rest, x ∈ doms.getD p [] := by
  unfold domInter
  exact mem_interFold doms rest (doms.getD p0 []) x

/-- Membership in the sorted candidate list. -/
theorem mem_domNew (doms : List (List Nat)) (i p0 : Nat) (rest : List Nat) (x : Nat) :
    x ∈ domNew doms i p0 rest ↔
      x = i ∨ (x ∈ doms.getD p0 [] ∧ ∀ p ∈ rest, x ∈ doms.getD p []) := by
  unfold domNew
  rw [(List.perm_insertionSort _ _).mem_iff]
  by_cases hi : i ∈ domInter doms p0 rest
  · simp only [hi, if_true]
    constructor
    · intro h; exact Or.inr ((mem_domInter doms p0 rest x).mp h)
    · rintro (rfl | h)
      · exact hi
      · exact (mem_domInter doms p0 rest x).mpr h
  · simp only [hi, if_false, List.mem_cons, mem_domInter]

/-- The candidate list is sorted. -/
theorem sorted_domNew (doms : List (List Nat)) (i p0 : Nat) (rest : List Nat) :
    List.Sorted (· ≤ ·) (domNew doms i p0 rest) :=
  List.sorted_insertionSort _ _

/-- A no-change `domStep` leaves the sets untouched. -/
theorem domStep_false_eq {preds doms : List (List Nat)} {i : Nat}
    {d : List (List Nat)} (h : domStep preds doms i = (d, false)) : d = doms := by
  unfold domStep at h
  rcases hp : preds.getD i [] with _ | ⟨p0, rest⟩ <;> rw [hp] at h <;> dsimp only at h
  · injection h with h1 _
    exact h1.symm
  · by_cases hs : domNew doms i p0 rest = doms.getD i []
    · rw [if_pos hs] at h
      injection h with h1 _
      exact h1.symm
    · rw [if_neg hs] at h
      injection h with _ h2
      exact absurd h2 (by simp)

/-- A no-change `domStep` at a block with predecessors means the stored
list already equals the sorted candidate. -/
theorem domStep_false_fix {preds doms : List (List Nat)} {i : Nat}
    {d : List (List Nat)} (h : domStep preds doms i = (d, false))
    {p0 : Nat} {rest : List Nat} (hp : preds.getD i [] = p0 :: rest) :
    domNew doms i p0 rest = doms.getD i [] := by
  unfold domStep at h
  rw [hp] at h
  dsimp only at h
  by_cases hs : domNew doms i p0 rest = doms.getD i []
  · exact hs
  · rw [if_neg hs] at h
    injection h with _ h2
    exact absurd h2 (by simp)

/-- The fold's flag is monotone: starting `true` it stays `true`. -/
theorem domFold_true (preds : List (List Nat)) (L : List Nat)
    (doms : List (List Nat)) : (domFold preds L doms true).2 = true := by
  induction L generalizing doms with
  | nil => simp [domFold]
  | cons j L ih => simpa [domFold] using ih (domStep preds doms j).1

/-- A no-change fold leaves the sets untouched and certifies a
no-change step at every index of the list. -/
theorem domFold_false {preds : List (List Nat)} {L : List Nat}
    {doms d : List (List Nat)} (h : domFold preds L doms false = (d, false)) :
    d = doms ∧ ∀ j ∈ L, domStep preds doms j = (doms, false) := by
  induction L generalizing doms with
  | nil =>
    simp only [domFold, List.foldl_nil] at h
    exact ⟨(Prod.mk.injEq _ _ _ _ ▸ h).1.symm, by simp⟩
  | cons j L ih =>
    rcases hj : domStep preds doms j with ⟨d1, c1⟩
    have hstep : domFold preds (j :: L) doms false = domFold preds L d1 c1 := by
      simp [domFold, hj]
    rw [hstep] at h
    cases c1 with
    | true => exact absurd ((domFold_true preds L d1) ▸ congrArg Prod.snd h) (by simp)
    | false =>
      have hd1 : d1 = doms := domStep_false_eq hj
      subst hd1
      rcases ih h with ⟨heq, hall⟩
      refine ⟨heq, fun k hk => ?_⟩
      rcases List.mem_cons.mp hk with rfl | hk
      · exact hj
      · exact hall k hk

/-- `domStep` at a positive index preserves the bookkeeping invariant. -/
theorem domStep_preserves_inv {preds doms : List (List Nat)} {i : Nat}
    (hinv : DomInv preds doms) (hi : 1 ≤ i) :
    DomInv preds (domStep preds doms i).1 := by
  unfold domStep
  rcases hp : preds.getD i [] with _ | ⟨p0, rest⟩ <;> dsimp only
  · exact hinv
  · by_cases hs : domNew doms i p0 rest = doms.getD i []
    · simpa [hs] using hinv
    · rw [if_neg hs]
      dsimp only
      obtain ⟨hlen, h0, hemp⟩ := hinv
      refine ⟨by simpa using hlen, ?_, ?_⟩
      · intro hn
        rw [getD_set_ne _ _ _ _ _ (by omega)]
        exact h0 hn
      · intro k hk1 hk2 hkp
        by_cases hki : i = k
        · subst hki; rw [hkp] at hp; exact absurd hp (by simp)
        · rw [getD_set_ne _ _ _ _ _ hki]
          exact hemp k hk1 hk2 hkp

/-- The fold over positive indices preserves the invariant. -/
theorem domFold_preserves_inv {preds : List (List Nat)} {L : List Nat}
    {doms : List (List Nat)} {b : Bool}
    (hL : ∀ j ∈ L, 1 ≤ j) (hinv : DomInv preds doms) :
    DomInv preds (domFold preds L doms b).1 := by
  induction L generalizing doms b with
  | nil => simpa [domFold]
  | cons j L ih =>
    have hstep : domFold preds (j :: L) doms b =
        domFold preds L (domStep preds doms j).1 (b || (domStep preds doms j).2) := by
      simp [domFold]
    rw [hstep]
    exact ih (fun k hk => hL k (List.mem_cons_of_mem _ hk))
      (domStep_preserves_inv hinv (hL j (List.mem_cons_self _ _)))

/-- The fixpoint loop: a `some` result satisfies the invariant and is a
state on which the sweep reports no change. -/
theorem computeDominatorsGo_spec {preds : List (List Nat)} :
    ∀ {fuel : Nat} {d doms : List (List Nat)},
    computeDominatorsGo preds fuel d = some doms → DomInv preds d →
    DomInv preds doms ∧ domSweep preds doms = (doms, false) := by
  intro fuel
  induction fuel with
  | zero => intro d doms h; simp [computeDominatorsGo] at h
  | succ k ih =>
    intro d doms h hinv
    have hL : ∀ j ∈ List.range' 1 (preds.length - 1), 1 ≤ j :=
      fun j hj => (List.mem_range'_1.mp hj).1
    have hinv' : DomInv preds (domSweep preds d).1 :=
      @domFold_preserves_inv preds (List.range' 1 (preds.length - 1)) d false hL hinv
    simp only [computeDominatorsGo] at h
    rcases hsw : domSweep preds d with ⟨d1, c1⟩
    rw [hsw] at h
    have hinv1 : DomInv preds d1 := by rw [hsw] at hinv'; exact hinv'
    cases c1 with
    | true =>
      rw [if_pos rfl] at h
      exact ih h hinv1
    | false =>
      rw [if_neg (by simp)] at h
      injection h with h1
      subst h1
      obtain ⟨heq, _⟩ := @domFold_false preds (List.range' 1 (preds.length - 1)) d d1
        (by rw [show domFold preds (List.range' 1 (preds.length - 1)) d false
                  = domSweep preds d from rfl, hsw])
      subst heq
      exact ⟨hinv1, hsw⟩

/-- The initial assignment satisfies the invariant. -/
theorem domsInit_inv (preds : List (List Nat)) :
    DomInv preds (domsInit preds.length) := by
  unfold DomInv domsInit
  refine ⟨by simp, ?_, ?_⟩
  · intro hn
    rw [List.getD_eq_getElem?_getD, List.getElem?_map, List.getElem?_range hn]
    simp
  · intro i hi1 hi2 _
    rw [List.getD_eq_getElem?_getD, List.getElem?_map, List.getElem?_range hi2]
    have hne : i ≠ 0 := by omega
    simp [hne]

/-- C7.  `compute_dominators` (with enough fuel to converge, which every
`some` result certifies) returns the iterative-intersection fixpoint:
the entry block's set is exactly `[0]`; every other block with
predecessors stores, in sorted order, exactly `{self} ∪ ⋂ preds`
(membership equation); and every other block without predecessors keeps
the initial all-blocks set (the empty intersection), also sorted. -/
theorem compute_dominators_fixpoint (preds : List (List Nat)) (fuel : Nat)
    (doms : List (List Nat)) (h : compute_dominators preds fuel = some doms) :
    doms.length = preds.length ∧
    (0 < preds.length → doms.getD 0 [] = [0]) ∧
    (∀ i, i < preds.length → List.Sorted (· ≤ ·) (doms.getD i [])) ∧
    (∀ i, 1 ≤ i → i < preds.length →
      (∀ p0 rest, preds.getD i [] = p0 :: rest →
        ∀ x, x ∈ doms.getD i [] ↔
          (x = i ∨ (x ∈ doms.getD p0 [] ∧ ∀ p ∈ rest, x ∈ doms.getD p []))) ∧
      (preds.getD i [] = [] → doms.getD i [] = List.range preds.length)) := by
  unfold compute_dominators at h
  by_cases hn : preds.length = 0
  · rw [if_pos hn] at h
    have hd : doms = [] := by simpa using h.symm
    subst hd
    refine ⟨by simpa using hn.symm, ?_, ?_, ?_⟩ <;> intro i <;> omega
  · rw [if_neg hn] at h
    obtain ⟨hinv, hfix⟩ := computeDominatorsGo_spec h (domsInit_inv preds)
    obtain ⟨hlen, h0, hemp⟩ := hinv
    have hsteps := (domFold_false (by simpa [domSweep] using hfix)).2
    have hstep : ∀ i, 1 ≤ i → i < preds.length → domStep preds doms i = (doms, false) := by
      intro i hi1 hi2
      exact hsteps i (List.mem_range'_1.mpr ⟨hi1, by omega⟩)
    refine ⟨hlen, h0, ?_, ?_⟩
    · intro i hi
      by_cases hi0 : i = 0
      · subst hi0; rw [h0 (by omega)]; simp
      · have hi1 : 1 ≤ i := by omega
        rcases hp : preds.getD i [] with _ | ⟨p0, rest⟩
        · rw [hemp i hi1 hi hp]
          exact List.Pairwise.imp (fun hlt => Nat.le_of_lt hlt) (List.pairwise_lt_range _)
        · have := domStep_false_fix (hstep i hi1 hi) hp
          rw [← this]
          exact sorted_domNew doms i p0 rest
    · intro i hi1 hi2
      constructor
      · intro p0 rest hp x
        have := domStep_false_fix (hstep i hi1 hi2) hp
        rw [← this, mem_domNew]
      · intro hp
        exact hemp i hi1 hi2 hp

/-- C7 witness: the theorem applied to the diamond CFG
`0 → {1,2} → 3`, whose fixpoint (`[[0],[0,1],[0,2],[0,3]]`) the
embedding computes in five sweeps. -/
theorem compute_dominators_witness :
    compute_dominators [[], [0], [0], [1, 2]] 5 =
      some [[0], [0, 1], [0, 2], [0, 3]] ∧
    ([[0], [0, 1], [0, 2], [0, 3]] : List (List Nat)).getD 0 [] = [0] ∧
    (∀ x, x ∈ ([[0], [0, 1], [0, 2], [0, 3]] : List (List Nat)).getD 3 [] ↔
      (x = 3 ∨ (x ∈ ([[0], [0, 1], [0, 2], [0, 3]] : List (List Nat)).getD 1 [] ∧
        ∀ p ∈ [2], x ∈ ([[0], [0, 1], [0, 2], [0, 3]] : List (List Nat)).getD p []))) := by
  have hrun : compute_dominators [[], [0], [0], [1, 2]] 5 =
      some [[0], [0, 1], [0, 2], [0, 3]] := by decide
  have hspec := compute_dominators_fixpoint [[], [0], [0], [1, 2]] 5
    [[0], [0, 1], [0, 2], [0, 3]] hrun
  refine ⟨hrun, hspec.2.1 (by decide), ?_⟩
  exact (hspec.2.2.2 3 (by decide) (by decide)).1 1 [2] (by decide)

/-! ### Register-allocation lemmas (claim C5) -/

/-- `overlaps` is symmetric. -/
theorem overlaps_symm (l1 l2 : LiveRange) : overlaps l1 l2 = overlaps l2 l1 := by
  unfold overlaps
  rw [Bool.or_comm]

/-- Every edge the builder adds has its mirror. -/
theorem edge_symm {lrs : List (Nat × LiveRange)} {a b : Nat}
    (h : (a, b) ∈ build_interference_edges lrs) :
    (b, a) ∈ build_interference_edges lrs := by
  induction lrs with
  | nil => simpa [build_interference_edges] using h
  | cons hd rest ih =>
    rcases hd with ⟨r, lr⟩
    simp only [build_interference_edges, List.mem_append, List.mem_flatMap,
      List.mem_filter] at h ⊢
    rcases h with ⟨p, ⟨hp, hov⟩, hmem⟩ | h
    · refine Or.inl ⟨p, ⟨hp, hov⟩, ?_⟩
      simp only [List.mem_cons, List.not_mem_nil, or_false] at hmem ⊢
      rcases hmem with h1 | h1
      · exact Or.inr (by simp [Prod.ext_iff] at h1 ⊢; exact ⟨h1.2, h1.1⟩)
      · exact Or.inl (by simp [Prod.ext_iff] at h1 ⊢; exact ⟨h1.2, h1.1⟩)
    · exact Or.inr (ih h)

/-- Two distinct registers with overlapping live ranges are joined by an
edge. -/
theorem edge_of_overlap {lrs : List (Nat × LiveRange)} {r1 r2 : Nat}
    {lr1 lr2 : LiveRange}
    (h1 : (r1, lr1) ∈ lrs) (h2 : (r2, lr2) ∈ lrs) (hne : r1 ≠ r2)
    (hov : overlaps lr1 lr2 = true) :
    (r1, r2) ∈ build_interference_edges lrs := by
  induction lrs with
  | nil => simp at h1
  | cons hd rest ih =>
    rcases hd with ⟨r, lr⟩
    rcases List.mem_cons.mp h1 with he1 | h1'
    · have hr : r = r1 ∧ lr = lr1 := by
        have := he1.symm
        exact ⟨congrArg Prod.fst this, congrArg Prod.snd this⟩
      rcases List.mem_cons.mp h2 with he2 | h2'
      · exact absurd (hr.1.symm.trans (congrArg Prod.fst he2.symm)) hne
      · simp only [build_interference_edges, List.mem_append, List.mem_flatMap,
          List.mem_filter]
        refine Or.inl ⟨(r2, lr2), ⟨h2', ?_⟩, ?_⟩
        · simpa [hr.2] using hov
        · simp [hr.1]
    · rcases List.mem_cons.mp h2 with he2 | h2'
      · have hr : r = r2 ∧ lr = lr2 := by
          have := he2.symm
          exact ⟨congrArg Prod.fst this, congrArg Prod.snd this⟩
        simp only [build_interference_edges, List.mem_append, List.mem_flatMap,
          List.mem_filter]
        refine Or.inl ⟨(r1, lr1), ⟨h1', ?_⟩, ?_⟩
        · rw [hr.2, ← overlaps_symm]
          exact hov
        · simp [hr.1]
      · simp only [build_interference_edges, List.mem_append]
        exact Or.inr (ih h1' h2')

/-- An edge endpoint is a neighbour of the other endpoint. -/
theorem mem_neighbors_of_edge {edges : List (Nat × Nat)} {a b : Nat}
    (h : (a, b) ∈ edges) : b ∈ neighbors edges a := by
  unfold neighbors
  exact List.mem_map.mpr ⟨(a, b), List.mem_filter.mpr ⟨h, by simp⟩, rfl⟩

/-- Filtering by a stronger predicate yields a shorter list. -/
theorem filter_imp_length {p q : Nat → Bool} (himp : ∀ x, p x = true → q x = true) :
    ∀ l : List Nat, (l.filter p).length ≤ (l.filter q).length := by
  intro l
  induction l with
  | nil => simp
  | cons x rest ih =>
    by_cases hp : p x = true
    · simp [hp, himp x hp, Nat.succ_le_succ ih]
    · by_cases hq : q x = true
      · simp only [List.filter_cons]
        rw [if_neg (by simpa using hp), if_pos (by simpa using hq)]
        exact Nat.le_succ_of_le ih
      · simp only [List.filter_cons]
        rw [if_neg (by simpa using hp), if_neg (by simpa using hq)]
        exact ih

/-- The tail-measure of the colour search strictly drops past a used
colour. -/
theorem filter_succ_length {used : List Nat} {c : Nat} (hc : c ∈ used) :
    (used.filter (fun x => c + 1 ≤ x)).length + 1 ≤
      (used.filter (fun x => c ≤ x)).length := by
  induction used with
  | nil => simp at hc
  | cons x rest ih =>
    by_cases hx1 : c + 1 ≤ x
    · have hx0 : c ≤ x := Nat.le_of_succ_le hx1
      have hc' : c ∈ rest := by
        rcases List.mem_cons.mp hc with rfl | h
        · omega
        · exact h
      simp only [List.filter_cons]
      rw [if_pos (by simpa using hx1), if_pos (by simpa using hx0)]
      simpa using Nat.succ_le_succ (ih hc')
    · by_cases hx0 : c ≤ x
      · simp only [List.filter_cons]
        rw [if_neg (by simpa using hx1), if_pos (by simpa using hx0)]
        simp only [List.length_cons]
        have hmono := filter_imp_length
          (p := fun x => decide (c + 1 ≤ x)) (q := fun x => decide (c ≤ x))
          (fun y hy => by
            simp only [decide_eq_true_eq] at hy ⊢
            omega) rest
        omega
      · have hc' : c ∈ rest := by
          rcases List.mem_cons.mp hc with rfl | h
          · omega
          · exact h
        simp only [List.filter_cons]
        rw [if_neg (by simpa using hx1), if_neg (by simpa using hx0)]
        exact ih hc'

/-- The colour search never returns a used colour when it has enough
fuel. -/
theorem lowestColorGo_not_mem {used : List Nat} :
    ∀ (fuel c : Nat), (used.filter (fun x => c ≤ x)).length < fuel →
      lowestColorGo used c fuel ∉ used := by
  intro fuel
  induction fuel with
  | zero => intro c h; omega
  | succ k ih =>
    intro c h
    by_cases hc : c ∈ used
    · simp only [lowestColorGo, hc, if_true]
      refine ih (c + 1) ?_
      have := filter_succ_length hc
      omega
    · simpa [lowestColorGo, hc] using hc

/-- `lowestColor` is not among the used colours. -/
theorem lowestColor_not_mem (used : List Nat) : lowestColor used ∉ used := by
  refine lowestColorGo_not_mem (used.length + 1) 0 ?_
  have := List.length_filter_le (fun x => decide (0 ≤ x)) used
  omega

/-- Every colour below the returned one is used. -/
theorem lowestColorGo_min {used : List Nat} :
    ∀ (fuel c d : Nat), c ≤ d → d < lowestColorGo used c fuel → d ∈ used := by
  intro fuel
  induction fuel with
  | zero =>
    intro c d hcd hd
    simp only [lowestColorGo] at hd
    omega
  | succ k ih =>
    intro c d hcd hd
    by_cases hc : c ∈ used
    · simp only [lowestColorGo, hc, if_true] at hd
      by_cases hdc : d = c
      · exact hdc ▸ hc
      · exact ih (c + 1) d (by omega) hd
    · simp only [lowestColorGo, hc, if_false] at hd
      omega

/-- `colorOf` on a freshly consed colour entry. -/
theorem colorOf_cons (coloring : List (Nat × Nat)) (n c x : Nat) :
    colorOf ((n, c) :: coloring) x = if n = x then some c else colorOf coloring x := by
  unfold colorOf
  by_cases h : n = x <;> simp [List.find?_cons, h]

/-- The selection loop only produces proper colourings. -/
theorem selectGo_proper {edges : List (Nat × Nat)} {k : Nat}
    (hsymm : ∀ a b, (a, b) ∈ edges → (b, a) ∈ edges) :
    ∀ (stack spilled : List Nat) (coloring : List (Nat × Nat)),
      ProperColoring edges coloring →
      ProperColoring edges (selectGo edges k stack spilled coloring).1 := by
  intro stack
  induction stack with
  | nil => intro spilled coloring h; simpa [selectGo] using h
  | cons node rest ih =>
    intro spilled coloring h
    unfold selectGo
    by_cases hsp : node ∈ spilled
    · rw [if_pos hsp]
      exact ih spilled coloring h
    · rw [if_neg hsp]
      by_cases hk : k ≤ lowestColor ((neighbors edges node).filterMap (colorOf coloring))
      · rw [if_pos hk]
        exact ih (node :: spilled) coloring h
      · rw [if_neg hk]
        refine ih spilled ((node, lowestColor
          ((neighbors edges node).filterMap (colorOf coloring))) :: coloring) ?_
        intro a b ca cb hne hedge hca hcb
        rw [colorOf_cons] at hca hcb
        by_cases hna : node = a
        · subst hna
          rw [if_pos rfl] at hca
          rw [if_neg hne] at hcb
          injection hca with hca'
          have hbn : b ∈ neighbors edges node := mem_neighbors_of_edge hedge
          have hcb_used : cb ∈ (neighbors edges node).filterMap (colorOf coloring) :=
            List.mem_filterMap.mpr ⟨b, hbn, hcb⟩
          intro heq
          apply lowestColor_not_mem ((neighbors edges node).filterMap (colorOf coloring))
          rw [hca', heq]
          exact hcb_used
        · by_cases hnb : node = b
          · subst hnb
            rw [if_pos rfl] at hcb
            rw [if_neg hna] at hca
            injection hcb with hcb'
            have han : a ∈ neighbors edges node :=
              mem_neighbors_of_edge (hsymm a node hedge)
            have hca_used : ca ∈ (neighbors edges node).filterMap (colorOf coloring) :=
              List.mem_filterMap.mpr ⟨a, han, hca⟩
            intro heq
            apply lowestColor_not_mem ((neighbors edges node).filterMap (colorOf coloring))
            rw [hcb', ← heq]
            exact hca_used
          · rw [if_neg hna] at hca
            rw [if_neg hnb] at hcb
            exact h a b ca cb hne hedge hca hcb

/-- The element at a `posOf` position is the looked-up one. -/
theorem posOf_get : ∀ (l : List Nat) (r i : Nat), posOf l r = some i → l.get? i = some r := by
  intro l
  induction l with
  | nil => intro r i h; simp [posOf] at h
  | cons x rest ih =>
    intro r i h
    unfold posOf at h
    by_cases hx : x = r
    · rw [if_pos hx] at h
      injection h with h'
      subst h'
      simpa using hx
    · rw [if_neg hx] at h
      rcases hrec : posOf rest r with _ | j
      · rw [hrec] at h; simp at h
      · rw [hrec] at h
        injection h with h'
        subst h'
        simpa using ih r j hrec

/-- None of the fourteen physical registers is a `Spilled` slot. -/
theorem phys_regs_not_spilled :
    ∀ (i : Fin phys_regs.length), isSpilledReg (phys_regs.get i) = false := by decide

/-- The fourteen physical registers are pairwise distinct. -/
theorem phys_regs_nodup : phys_regs.Nodup := by decide

/-- C5.  After `RegisterAllocator::allocate` on a function, two distinct
virtual registers whose computed live ranges overlap are never mapped to
the same physical register (colour-colour, colour-spill and spill-spill
cases alike); moreover the selection colour is the lowest colour not
among the already-coloured neighbours' colours, and spilled registers
receive pairwise-distinct stack slots. -/
theorem register_allocation_no_conflict {F : Type} (func : IRFunction F)
    (k r1 r2 : Nat) (lr1 lr2 : LiveRange) (p q : PhysicalRegister)
    (h1 : (r1, lr1) ∈ compute_live_ranges func)
    (h2 : (r2, lr2) ∈ compute_live_ranges func)
    (hne : r1 ≠ r2) (hov : overlaps lr1 lr2 = true)
    (ha1 : allocateFor func k r1 = some p)
    (ha2 : allocateFor func k r2 = some q) :
    p ≠ q ∧
    (∀ used : List Nat, lowestColor used ∉ used ∧
      ∀ d, d < lowestColor used → d ∈ used) ∧
    (∀ (spilled : List Nat) (a b i j : Nat), a ≠ b →
      posOf spilled a = some i → posOf spilled b = some j → i ≠ j) := by
  have hslots : ∀ (spilled : List Nat) (a b i j : Nat), a ≠ b →
      posOf spilled a = some i → posOf spilled b = some j → i ≠ j := by
    intro spilled a b i j hab hi hj hij
    subst hij
    have := (posOf_get spilled a i hi).symm.trans (posOf_get spilled b i hj)
    exact hab (by injection this)
  refine ⟨?_, fun used => ⟨lowestColor_not_mem used, fun d hd =>
      lowestColorGo_min (used.length + 1) 0 d (Nat.zero_le d) hd⟩, hslots⟩
  unfold allocateFor at ha1 ha2
  dsimp only at ha1 ha2
  rcases hgc : graph_coloring (compute_live_ranges func) k with ⟨coloring, spilled⟩
  rw [hgc] at ha1 ha2
  dsimp only at ha1 ha2
  have hproper : ProperColoring (build_interference_edges (compute_live_ranges func))
      coloring := by
    unfold graph_coloring at hgc
    dsimp only at hgc
    rcases hsim : simplifyGo (build_interference_edges (compute_live_ranges func))
        (compute_live_ranges func) k
        (graphKeys (build_interference_edges (compute_live_ranges func))).length
        (graphKeys (build_interference_edges (compute_live_ranges func))) [] []
      with ⟨stack, spilled0⟩
    rw [hsim] at hgc
    dsimp only at hgc
    have hsel := @selectGo_proper
      (build_interference_edges (compute_live_ranges func)) k
      (fun a b hab => edge_symm hab) stack spilled0 []
      (by intro a b ca cb _ _ hca _; simp [colorOf] at hca)
    rw [hgc] at hsel
    exact hsel
  have hedge : (r1, r2) ∈ build_interference_edges (compute_live_ranges func) :=
    edge_of_overlap h1 h2 hne hov
  unfold allocationOf at ha1 ha2
  rcases hp1 : posOf spilled r1 with _ | i <;> rw [hp1] at ha1 <;> dsimp only at ha1
  · rcases hc1 : colorOf coloring r1 with _ | c1 <;> rw [hc1] at ha1 <;> dsimp only at ha1
    · exact absurd ha1 (by simp)
    · by_cases hlt1 : c1 < phys_regs.length
      · rw [dif_pos hlt1] at ha1
        injection ha1 with hp'
        rcases hp2 : posOf spilled r2 with _ | j <;> rw [hp2] at ha2 <;> dsimp only at ha2
        · rcases hc2 : colorOf coloring r2 with _ | c2 <;> rw [hc2] at ha2 <;>
            dsimp only at ha2
          · exact absurd ha2 (by simp)
          · by_cases hlt2 : c2 < phys_regs.length
            · rw [dif_pos hlt2] at ha2
              injection ha2 with hq'
              have hcc : c1 ≠ c2 := hproper r1 r2 c1 c2 hne hedge hc1 hc2
              intro hpq
              apply hcc
              have hg : phys_regs.get ⟨c1, hlt1⟩ = phys_regs.get ⟨c2, hlt2⟩ := by
                rw [hp', hq', hpq]
              have := (List.Nodup.get_inj_iff phys_regs_nodup).mp hg
              exact congrArg Fin.val this
            · rw [dif_neg hlt2] at ha2
              exact absurd ha2 (by simp)
        · injection ha2 with hq'
          intro hpq
          have hspq : isSpilledReg q = true := by rw [← hq']; rfl
          have hspp : isSpilledReg p = false := by
            rw [← hp']
            exact phys_regs_not_spilled ⟨c1, hlt1⟩
          rw [hpq] at hspp
          rw [hspp] at hspq
          exact absurd hspq (by simp)
      · rw [dif_neg hlt1] at ha1
        exact absurd ha1 (by simp)
  · injection ha1 with hp'
    rcases hp2 : posOf spilled r2 with _ | j <;> rw [hp2] at ha2 <;> dsimp only at ha2
    · rcases hc2 : colorOf coloring r2 with _ | c2 <;> rw [hc2] at ha2 <;> dsimp only at ha2
      · exact absurd ha2 (by simp)
      · by_cases hlt2 : c2 < phys_regs.length
        · rw [dif_pos hlt2] at ha2
          injection ha2 with hq'
          intro hpq
          have hspp : isSpilledReg p = true := by rw [← hp']; rfl
          have hspq : isSpilledReg q = false := by
            rw [← hq']
            exact phys_regs_not_spilled ⟨c2, hlt2⟩
          rw [hpq] at hspp
          rw [hspp] at hspq
          exact absurd hspq (by simp)
        · rw [dif_neg hlt2] at ha2
          exact absurd ha2 (by simp)
    · injection ha2 with hq'
      have hij : i ≠ j := hslots spilled r1 r2 i j hne hp1 hp2
      intro hpq
      apply hij
      rw [← hp', ← hq'] at hpq
      injection hpq

/-- C5 witness: `r0 ← 1; r1 ← r0` has overlapping live ranges for `r0`
and `r1`; with 14 registers the allocator maps them to `RBX` and `RAX`,
which the theorem certifies distinct. -/
theorem register_allocation_witness :
    (0, ⟨0, (0, 0), (0, 1), [(0, 1)]⟩) ∈ compute_live_ranges allocExampleFunc ∧
    (1, ⟨1, (0, 1), (0, 1), []⟩) ∈ compute_live_ranges allocExampleFunc ∧
    overlaps ⟨0, (0, 0), (0, 1), [(0, 1)]⟩ ⟨1, (0, 1), (0, 1), []⟩ = true ∧
    allocateFor allocExampleFunc 14 0 = some .RBX ∧
    allocateFor allocExampleFunc 14 1 = some .RAX ∧
    PhysicalRegister.RBX ≠ PhysicalRegister.RAX := by
  refine ⟨by decide, by decide, by decide, by decide, by decide, ?_⟩
  exact (register_allocation_no_conflict allocExampleFunc 14 0 1
    ⟨0, (0, 0), (0, 1), [(0, 1)]⟩ ⟨1, (0, 1), (0, 1), []⟩ .RBX .RAX
    (by decide) (by decide) (by decide) (by decide) (by decide) (by decide)).1

/-! ### Pipeline-preservation lemmas (claim C10) -/

/-- Fold preservation of a predicate. -/
theorem foldl_preserve {α : Type _} {β : Type _} (P : α → Prop) (f : α → β → α)
    (h : ∀ a b, P a → P (f a b)) :
    ∀ (l : List β) (a : α), P a → P (l.foldl f a) := by
  intro l
  induction l with
  | nil => intro a ha; exact ha
  | cons b rest ih => intro a ha; exact ih _ (h a b ha)

/-- Setting a position to an element with the same `id` preserves the
block-id sequence. -/
theorem map_id_set {F : Type} (blocks : List (IRBasicBlock F)) (i : Nat)
    (blk newblk : IRBasicBlock F)
    (hget : blocks.get? i = some blk) (hid : newblk.id = blk.id) :
    (blocks.set i newblk).map (fun b => b.id) = blocks.map (fun b => b.id) := by
  rw [List.map_set, hid]
  rw [List.get?_eq_getElem?] at hget
  have hil : i < blocks.length := by
    by_contra hge
    rw [List.getElem?_eq_none (by omega)] at hget
    simp at hget
  apply List.ext_getElem?
  intro n
  by_cases hn : n = i
  · subst hn
    rw [List.getElem?_set_self]
    · rw [List.getElem?_map, hget]
      rfl
    · simpa using hil
  · rw [List.getElem?_set_ne (by omega)]

/-- `ssaDomStep` preserves the block-id sequence. -/
theorem ssaDomStep_ids {F : Type} (blocks : List (IRBasicBlock F)) (i : Nat) :
    ((ssaDomStep blocks i).1).map (fun b => b.id) = blocks.map (fun b => b.id) := by
  unfold ssaDomStep
  cases hget : blocks.get? i with
  | none => rfl
  | some blk =>
    dsimp only
    split <;> split
    · rfl
    · exact map_id_set blocks i blk _ hget rfl
    · rfl
    · exact map_id_set blocks i blk _ hget rfl

/-- `ssaDomSweep` preserves the block-id sequence. -/
theorem ssaDomSweep_ids {F : Type} (blocks : List (IRBasicBlock F)) :
    ((ssaDomSweep blocks).1).map (fun b => b.id) = blocks.map (fun b => b.id) := by
  unfold ssaDomSweep
  have := foldl_preserve
    (fun acc : List (IRBasicBlock F) × Bool =>
      acc.1.map (fun b => b.id) = blocks.map (fun b => b.id))
    (fun acc i =>
      let next := ssaDomStep acc.1 i
      (next.1, acc.2 || next.2))
    (fun acc i ha => by
      dsimp only
      rw [ssaDomStep_ids]
      exact ha)
    (List.range' 1 (blocks.length - 1)) (blocks, false) rfl
  exact this

/-- `ssaDomLoop` preserves the block-id sequence. -/
theorem ssaDomLoop_ids {F : Type} :
    ∀ (fuel : Nat) (blocks : List (IRBasicBlock F)),
    (ssaDomLoop fuel blocks).map (fun b => b.id) = blocks.map (fun b => b.id) := by
  intro fuel
  induction fuel with
  | zero => intro blocks; rfl
  | succ k ih =>
    intro blocks
    unfold ssaDomLoop
    dsimp only
    split
    · rw [ih, ssaDomSweep_ids]
    · rw [ssaDomSweep_ids]

/-- `ssaComputeDominance` preserves the block-id sequence. -/
theorem ssaComputeDominance_ids {F : Type} (blocks : List (IRBasicBlock F)) :
    (ssaComputeDominance blocks).map (fun b => b.id) = blocks.map (fun b => b.id) := by
  unfold ssaComputeDominance
  rw [ssaDomLoop_ids]
  rw [List.map_map]
  have h1 : ((fun (b : IRBasicBlock F) => b.id) ∘ (fun bi : IRBasicBlock F × Nat =>
      { bi.1 with dominators := if bi.2 = 0 then [0] else List.range blocks.length })) =
      ((fun (b : IRBasicBlock F) => b.id) ∘ Prod.fst) := rfl
  rw [h1, ← List.map_map, List.map_fst_zip _ _ (by simp)]

/-- `addToFrontier` preserves the block-id sequence. -/
theorem addToFrontier_ids {F : Type} (blocks : List (IRBasicBlock F)) (runner b : Nat) :
    (addToFrontier blocks runner b).map (fun bl => bl.id) = blocks.map (fun bl => bl.id) := by
  unfold addToFrontier
  cases hget : blocks.get? runner with
  | none => rfl
  | some blk =>
    dsimp only
    split
    · rfl
    · exact map_id_set blocks runner blk _ hget rfl

/-- `frontierWalk` preserves the block-id sequence. -/
theorem frontierWalk_ids {F : Type} (b : Nat) :
    ∀ (fuel : Nat) (blocks : List (IRBasicBlock F)) (runner : Nat),
    (frontierWalk b fuel blocks runner).map (fun bl => bl.id) =
      blocks.map (fun bl => bl.id) := by
  intro fuel
  induction fuel with
  | zero => intro blocks runner; rfl
  | succ k ih =>
    intro blocks runner
    unfold frontierWalk
    split
    · rfl
    · dsimp only
      split
      · rw [ih, addToFrontier_ids]
      · rw [addToFrontier_ids]

/-- `ssaComputeFrontiers` preserves the block-id sequence. -/
theorem ssaComputeFrontiers_ids {F : Type} (blocks : List (IRBasicBlock F)) :
    (ssaComputeFrontiers blocks).map (fun bl => bl.id) = blocks.map (fun bl => bl.id) := by
  unfold ssaComputeFrontiers
  dsimp only
  have hcleared : (blocks.map (fun bl => { bl with dom_frontier := [] })).map
      (fun bl => bl.id) = blocks.map (fun bl => bl.id) := by
    rw [List.map_map]; rfl
  refine (foldl_preserve
    (fun bs : List (IRBasicBlock F) => bs.map (fun bl => bl.id) = blocks.map (fun bl => bl.id))
    _ ?_ (List.range blocks.length) _ hcleared)
  intro bs b hbs
  dsimp only
  split
  · refine (foldl_preserve
      (fun bs2 : List (IRBasicBlock F) =>
        bs2.map (fun bl => bl.id) = blocks.map (fun bl => bl.id)) _ ?_ _ _ hbs)
    intro bs2 p hbs2
    rw [frontierWalk_ids]
    exact hbs2
  · exact hbs

/-- `insertPhiAt` preserves the block-id sequence. -/
theorem insertPhiAt_ids {F : Type} (blocks : List (IRBasicBlock F)) (fb reg : Nat) :
    (insertPhiAt blocks fb reg).map (fun bl => bl.id) = blocks.map (fun bl => bl.id) := by
  unfold insertPhiAt
  cases hget : blocks.get? fb with
  | none => rfl
  | some blk =>
    dsimp only
    exact map_id_set blocks fb blk _ hget rfl

/-- `phiWorklist` preserves the block-id sequence. -/
theorem phiWorklist_ids {F : Type} (reg : Nat) :
    ∀ (fuel : Nat) (blocks : List (IRBasicBlock F)) (work visited : List Nat),
    (phiWorklist reg fuel blocks work visited).map (fun bl => bl.id) =
      blocks.map (fun bl => bl.id) := by
  intro fuel
  induction fuel with
  | zero => intro blocks work visited; rfl
  | succ k ih =>
    intro blocks work visited
    have hfoldlem : ∀ (L : List Nat) (acc : List (IRBasicBlock F) × List Nat),
        acc.1.map (fun bl => bl.id) = blocks.map (fun bl => bl.id) →
        ((L.foldl (fun acc fb =>
            if hasPhiFor acc.1 fb reg then acc
            else (insertPhiAt acc.1 fb reg,
                  if fb ∈ acc.2 then acc.2 else acc.2 ++ [fb])) acc).1).map
          (fun bl => bl.id) = blocks.map (fun bl => bl.id) := by
      intro L
      induction L with
      | nil => intro acc h; exact h
      | cons fb L ihL =>
        intro acc h
        rw [List.foldl_cons]
        apply ihL
        by_cases hphi : hasPhiFor acc.1 fb reg = true
        · rw [if_pos hphi]; exact h
        · rw [if_neg hphi]; dsimp only; rw [insertPhiAt_ids]; exact h
    unfold phiWorklist
    cases hlast : work.getLast? with
    | none => rfl
    | some block_id =>
      dsimp only
      by_cases hvis : block_id ∈ visited
      · rw [if_pos hvis]; exact ih blocks _ _
      · rw [if_neg hvis]
        rw [ih]
        exact hfoldlem (((blocks.get? block_id).map (fun b => b.dom_frontier)).getD [])
          (blocks, work.dropLast) rfl

/-- `insertPhiNodes` preserves the block-id sequence. -/
theorem insertPhiNodes_ids {F : Type} (blocks : List (IRBasicBlock F)) :
    (insertPhiNodes blocks).map (fun bl => bl.id) = blocks.map (fun bl => bl.id) := by
  unfold insertPhiNodes
  refine (foldl_preserve
    (fun bs : List (IRBasicBlock F) =>
      bs.map (fun bl => bl.id) = blocks.map (fun bl => bl.id)) _ ?_ _ _ rfl)
  intro bs rd hbs
  rw [phiWorklist_ids]
  exact hbs

/-- The SSA pass preserves the block-id sequence of every function. -/
theorem transform_to_ssa_ids {F : Type} (func : IRFunction F) :
    ((transform_to_ssa func).1).blocks.map (fun bl => bl.id) =
      func.blocks.map (fun bl => bl.id) := by
  unfold transform_to_ssa
  split
  · rfl
  · dsimp only [renameVariables]
    rw [insertPhiNodes_ids, ssaComputeFrontiers_ids, ssaComputeDominance_ids]

/-- A block list whose id sequence contains 0 has an entry block, and
this only depends on the id sequence. -/
theorem any_entry_of_ids {F : Type} (blocks blocks' : List (IRBasicBlock F))
    (hids : blocks'.map (fun b => b.id) = blocks.map (fun b => b.id))
    (h : blocks.any (fun b => b.id = 0) = true) :
    blocks'.any (fun b => b.id = 0) = true := by
  obtain ⟨b0, hb0, hid0⟩ := List.any_eq_true.mp h
  have h0 : (0 : Nat) ∈ blocks'.map (fun b => b.id) := by
    rw [hids]
    exact List.mem_map.mpr ⟨b0, hb0, by simpa using hid0⟩
  obtain ⟨b', hb', hid'⟩ := List.mem_map.mp h0
  rw [List.any_eq_true]
  exact ⟨b', hb', by simpa using hid'⟩

/-- Marking reachable blocks never drops an already-marked block. -/
theorem mark_reachable_superset {F : Type} (func : IRFunction F) :
    ∀ (fuel : Nat) (live : List Nat) (bid x : Nat), x ∈ live →
      x ∈ mark_reachable_blocks func fuel live bid := by
  intro fuel
  induction fuel with
  | zero => intro live bid x hx; simpa [mark_reachable_blocks] using hx
  | succ k ih =>
    intro live bid x hx
    unfold mark_reachable_blocks
    by_cases hc : bid ∈ live ∨ func.blocks.length ≤ bid
    · rw [if_pos hc]; exact hx
    · rw [if_neg hc]
      dsimp only
      have hx1 : x ∈ bid :: live := List.mem_cons_of_mem _ hx
      have hfold : ∀ (L acc : List Nat), x ∈ acc →
          x ∈ L.foldl (fun l s => mark_reachable_blocks func k l s) acc := by
        intro L
        induction L with
        | nil => intro acc h; exact h
        | cons s L ihL => intro acc h; exact ihL _ (ih _ _ _ h)
      cases hfind : func.blocks.find? (fun b => b.id = bid) with
      | none => exact hx1
      | some block => exact hfold _ _ (hfold _ _ hx1)

/-- With any successor fuel, block id 0 is marked reachable in a
non-empty function. -/
theorem zero_mem_mark_reachable {F : Type} (func : IRFunction F) (m : Nat)
    (h : func.blocks ≠ []) :
    0 ∈ mark_reachable_blocks func (m + 1) [] 0 := by
  unfold mark_reachable_blocks
  have hlen : 0 < func.blocks.length := List.length_pos.mpr h
  have hcond : ¬((0 : Nat) ∈ ([] : List Nat) ∨ func.blocks.length ≤ 0) := by
    rintro (hh | hh)
    · simp at hh
    · omega
  rw [if_neg hcond]
  dsimp only
  have hfold : ∀ (L acc : List Nat), (0 : Nat) ∈ acc →
      (0 : Nat) ∈ L.foldl (fun l s => mark_reachable_blocks func m l s) acc := by
    intro L
    induction L with
    | nil => intro acc hh; exact hh
    | cons s L ihL => intro acc hh; exact ihL _ (mark_reachable_superset func m _ _ _ hh)
  cases hfind : func.blocks.find? (fun b => b.id = 0) with
  | none => simp
  | some block => exact hfold _ _ (hfold _ _ (by simp))

/-- Dead-code elimination keeps the entry block of a function that has
one. -/
theorem eliminate_dead_code_entry {F : Type} (f : IRFunction F)
    (h : f.blocks.any (fun b => b.id = 0) = true) :
    (eliminate_dead_code f).1.blocks.any (fun b => b.id = 0) = true := by
  obtain ⟨b0, hb0, hid0⟩ := List.any_eq_true.mp h
  have hid0' : b0.id = 0 := by simpa using hid0
  have hne : f.blocks ≠ [] := by
    intro hempty
    rw [hempty] at hb0
    simp at hb0
  have h0live : 0 ∈ mark_reachable_blocks f
      (f.blocks.length * f.blocks.length + 2) [] 0 :=
    zero_mem_mark_reachable f (f.blocks.length * f.blocks.length + 1) hne
  unfold eliminate_dead_code
  dsimp only
  rw [List.map_map, List.any_eq_true]
  refine ⟨_, List.mem_map.mpr ⟨b0, List.mem_filter.mpr ⟨hb0, ?_⟩, rfl⟩, ?_⟩
  · rw [hid0']
    exact decide_eq_true h0live
  · exact decide_eq_true hid0'

/-- `modifyFirstBlockWithId` with an id-preserving block rewrite
preserves the id sequence. -/
theorem modifyFirstBlockWithId_ids {F : Type}
    (fblk : IRBasicBlock F → IRBasicBlock F × Bool)
    (hf : ∀ b, (fblk b).1.id = b.id) :
    ∀ (blocks : List (IRBasicBlock F)) (bid : Nat),
    ((modifyFirstBlockWithId blocks bid fblk).1).map (fun b => b.id) =
      blocks.map (fun b => b.id) := by
  intro blocks
  induction blocks with
  | nil => intro bid; rfl
  | cons b rest ih =>
    intro bid
    unfold modifyFirstBlockWithId
    by_cases hb : b.id = bid
    · rw [if_pos hb]
      dsimp only
      rw [List.map_cons, List.map_cons, hf]
    · rw [if_neg hb]
      dsimp only
      rw [List.map_cons, List.map_cons, ih]

/-- `apply_strength_reduction` preserves the id sequence. -/
theorem apply_strength_reduction_ids {F : Type} (f : IRFunction F) (li : LoopInfo) :
    ((apply_strength_reduction f li).1).blocks.map (fun b => b.id) =
      f.blocks.map (fun b => b.id) := by
  unfold apply_strength_reduction
  dsimp only
  refine (foldl_preserve
    (fun acc : List (IRBasicBlock F) × Bool =>
      acc.1.map (fun b => b.id) = f.blocks.map (fun b => b.id)) _ ?_ _ _ rfl)
  intro acc bid ha
  dsimp only
  rw [modifyFirstBlockWithId_ids _ (fun b => rfl)]
  exact ha

/-- `optimize_loop` preserves the id sequence. -/
theorem optimize_loop_ids {F : Type} (f : IRFunction F) (li : LoopInfo) :
    ((optimize_loop f li).1).blocks.map (fun b => b.id) =
      f.blocks.map (fun b => b.id) := by
  unfold optimize_loop
  dsimp only
  exact apply_strength_reduction_ids f li

/-- Entry preservation for the function list of a mapped pass. -/
theorem anyEntry_map {F : Type} (fns : List (String × IRFunction F))
    (TF : IRFunction F → IRFunction F)
    (hTF : ∀ f, f.blocks.any (fun b => b.id = 0) = true →
      (TF f).blocks.any (fun b => b.id = 0) = true)
    (h : fns.any (fun nf => nf.2.blocks.any (fun b => b.id = 0)) = true) :
    (fns.map (fun nf => (nf.1, TF nf.2))).any
      (fun nf => nf.2.blocks.any (fun b => b.id = 0)) = true := by
  rw [List.any_eq_true] at h ⊢
  obtain ⟨nf, hmem, hb⟩ := h
  exact ⟨(nf.1, TF nf.2), List.mem_map.mpr ⟨nf, hmem, rfl⟩, by
    simpa using hTF nf.2 (by simpa using hb)⟩

/-- Every optimization pass preserves the existence of an entry block. -/
theorem run_pass_preserves {F : Type} [DecidableEq F] (FA : FloatArith F)
    (pass : OptPass) (p : IRProgram F) (h : hasEntryFunction p = true) :
    hasEntryFunction (run_pass FA p pass).1 = true := by
  unfold hasEntryFunction at h ⊢
  obtain ⟨nf, hmem, hb⟩ := List.any_eq_true.mp h
  obtain ⟨nfn, nff⟩ := nf
  cases pass with
  | ConstantFolding =>
    unfold run_pass constFoldRun
    dsimp only
    rw [List.any_eq_true]
    refine ⟨_, List.mem_map.mpr ⟨_, List.mem_map.mpr ⟨(nfn, nff), hmem, rfl⟩,
      rfl⟩, ?_⟩
    obtain ⟨b0, hb0, hid0⟩ := List.any_eq_true.mp hb
    show ((nff.blocks.map (fold_block FA)).map (fun q => q.1)).any
      (fun b => b.id = 0) = true
    rw [List.map_map, List.any_eq_true]
    exact ⟨_, List.mem_map.mpr ⟨b0, hb0, rfl⟩, hid0⟩
  | DeadCodeElimination =>
    unfold run_pass dceRun
    dsimp only
    rw [List.any_eq_true]
    refine ⟨_, List.mem_map.mpr ⟨_, List.mem_map.mpr ⟨(nfn, nff), hmem, rfl⟩,
      rfl⟩, ?_⟩
    exact eliminate_dead_code_entry nff hb
  | SSATransform =>
    unfold run_pass ssaRun
    dsimp only
    rw [List.any_eq_true]
    refine ⟨_, List.mem_map.mpr ⟨_, List.mem_map.mpr ⟨(nfn, nff), hmem, rfl⟩,
      rfl⟩, ?_⟩
    exact any_entry_of_ids nff.blocks _ (transform_to_ssa_ids nff) hb
  | Inlining =>
    unfold run_pass inlineRun
    dsimp only
    split
    · exact h
    · exact h
  | LoopOptimization =>
    unfold run_pass loopRun
    dsimp only
    rw [List.any_eq_true]
    refine ⟨_, List.mem_map.mpr ⟨_, List.mem_map.mpr ⟨(nfn, nff), hmem, rfl⟩,
      rfl⟩, ?_⟩
    show (((identify_loops nff).foldl (fun acc li =>
        ((optimize_loop acc.1 li).1, acc.2 || (optimize_loop acc.1 li).2))
        (nff, false)).1).blocks.any (fun b => b.id = 0) = true
    refine any_entry_of_ids nff.blocks _ ?_ hb
    refine (foldl_preserve
      (fun acc : IRFunction F × Bool =>
        acc.1.blocks.map (fun b => b.id) = nff.blocks.map (fun b => b.id))
      _ ?_ _ _ rfl)
    intro acc li ha
    dsimp only
    rw [optimize_loop_ids]
    exact ha
  | Peephole =>
    unfold run_pass peepholeRun
    dsimp only
    rw [List.any_eq_true]
    refine ⟨_, List.mem_map.mpr ⟨_, List.mem_map.mpr ⟨(nfn, nff), hmem, rfl⟩,
      rfl⟩, ?_⟩
    obtain ⟨b0, hb0, hid0⟩ := List.any_eq_true.mp hb
    show ((nff.blocks.map optimize_block).map (fun q => q.1)).any
      (fun b => b.id = 0) = true
    rw [List.map_map, List.any_eq_true]
    exact ⟨_, List.mem_map.mpr ⟨b0, hb0, rfl⟩, hid0⟩
  | ConstantPropagation => exact h
  | CommonSubexpressionElimination => exact h

/-- The SSA pass reports a change whenever some function has a
non-empty block list. -/
theorem ssaRun_changed {F : Type} (p : IRProgram F)
    (h : ∃ nf ∈ p.functions, nf.2.blocks ≠ []) : (ssaRun p).2 = true := by
  obtain ⟨nf, hmem, hne⟩ := h
  unfold ssaRun
  dsimp only
  rw [List.any_eq_true]
  refine ⟨((nf.1, (transform_to_ssa nf.2).1), (transform_to_ssa nf.2).2),
    List.mem_map.mpr ⟨nf, hmem, rfl⟩, ?_⟩
  unfold transform_to_ssa
  rw [if_neg (by simpa using hne)]

/-- Off-loading of the accumulated change flag of one outer iteration. -/
theorem foldl_runPassStep {F : Type} [DecidableEq F] (FA : FloatArith F) :
    ∀ (passes : List OptPass) (p : IRProgram F) (b : Bool),
    passes.foldl (runPassStep FA) (p, b) =
      ((runAllPasses FA passes p).1, b || (runAllPasses FA passes p).2) := by
  intro passes
  induction passes with
  | nil =>
    intro p b
    show (p, b) = ((runAllPasses FA [] p).1, b || (runAllPasses FA [] p).2)
    show (p, b) = (p, b || false)
    rw [Bool.or_false]
  | cons pass rest ih =>
    intro p b
    rw [List.foldl_cons,
      show runPassStep FA (p, b) pass =
        ((run_pass FA p pass).1, b || (run_pass FA p pass).2) from rfl, ih]
    have hR : runAllPasses FA (pass :: rest) p =
        rest.foldl (runPassStep FA) (runPassStep FA (p, false) pass) := rfl
    rw [hR,
      show runPassStep FA (p, false) pass =
        ((run_pass FA p pass).1, false || (run_pass FA p pass).2) from rfl, ih]
    rw [Bool.false_or, Bool.or_assoc]

/-- One outer iteration, unfolded one pass at a time. -/
theorem runAllPasses_cons {F : Type} [DecidableEq F] (FA : FloatArith F)
    (pass : OptPass) (rest : List OptPass) (p : IRProgram F) :
    runAllPasses FA (pass :: rest) p =
      ((runAllPasses FA rest (run_pass FA p pass).1).1,
       (run_pass FA p pass).2 ||
         (runAllPasses FA rest (run_pass FA p pass).1).2) := by
  have hR : runAllPasses FA (pass :: rest) p =
      rest.foldl (runPassStep FA) (runPassStep FA (p, false) pass) := rfl
  rw [hR,
    show runPassStep FA (p, false) pass =
      ((run_pass FA p pass).1, false || (run_pass FA p pass).2) from rfl,
    foldl_runPassStep, Bool.false_or]

/-- One outer iteration preserves the entry-block property. -/
theorem runAllPasses_preserves {F : Type} [DecidableEq F] (FA : FloatArith F) :
    ∀ (passes : List OptPass) (p : IRProgram F),
    hasEntryFunction p = true →
    hasEntryFunction (runAllPasses FA passes p).1 = true := by
  intro passes
  induction passes with
  | nil => intro p h; exact h
  | cons pass rest ih =>
    intro p h
    rw [runAllPasses_cons]
    exact ih _ (run_pass_preserves FA pass p h)

/-- If the pipeline contains the SSA pass, every outer iteration on a
program with an entry block reports a change. -/
theorem runAllPasses_changed {F : Type} [DecidableEq F] (FA : FloatArith F) :
    ∀ (passes : List OptPass) (p : IRProgram F),
    OptPass.SSATransform ∈ passes → hasEntryFunction p = true →
    (runAllPasses FA passes p).2 = true := by
  intro passes
  induction passes with
  | nil => intro p hmem; simp at hmem
  | cons pass rest ih =>
    intro p hmem h
    rw [runAllPasses_cons]
    dsimp only
    by_cases hpass : pass = .SSATransform
    · subst hpass
      have hch : (run_pass FA p .SSATransform).2 = true := by
        unfold run_pass
        refine ssaRun_changed p ?_
        obtain ⟨nf, hmemf, hb⟩ := List.any_eq_true.mp h
        refine ⟨nf, hmemf, ?_⟩
        intro hempty
        rw [hempty] at hb
        simp at hb
      rw [hch, Bool.true_or]
    · rcases List.mem_cons.mp hmem with heq | hmem'
      · exact absurd heq.symm hpass
      · rw [ih _ hmem' (run_pass_preserves FA pass p h), Bool.or_true]

/-- With the SSA pass in the pipeline and an entry block present, the
driver consumes its entire iteration budget. -/
theorem runPassesGo_full {F : Type} [DecidableEq F] (FA : FloatArith F)
    (passes : List OptPass) (hmem : OptPass.SSATransform ∈ passes) :
    ∀ (n : Nat) (p : IRProgram F), hasEntryFunction p = true →
    (runPassesGo FA passes n p).2 = n := by
  intro n
  induction n with
  | zero => intro p _; rfl
  | succ k ih =>
    intro p h
    unfold runPassesGo
    dsimp only
    rw [runAllPasses_changed FA passes p hmem h]
    rw [if_pos rfl]
    dsimp only
    rw [ih _ (runAllPasses_preserves FA passes p h)]

/-- C10 counterexample.  A program whose sole function has a non-empty
block list — but whose block has id 1 and whose function is marked
`no_inline` — converges after 2 outer iterations at Aggressive, below
the cap of 3: DCE deletes the (unreachable-by-id) block in iteration 1,
after which SSA sees an empty function and reports no change, and no
other pass reports one either. -/
theorem pipeline_early_exit_counterexample :
    strayBlockProgram.functions.any (fun nf => !nf.2.blocks.isEmpty) = true ∧
    (run_passes unitFloats .Aggressive strayBlockProgram).2 = 2 ∧
    (2 : Nat) ≠ get_iteration_count .Aggressive := by
  refine ⟨rfl, by decide, by decide⟩

/-- C10 as amended.  `SSATransform::run` reports `changed` for every
program containing at least one function with a non-empty block list;
and for programs in which some function still owns a block with id 0
(the entry block the IR builder always creates), the Aggressive and
Maximum pipelines never meet the no-change early exit and always run
their full iteration cap. -/
theorem ssa_always_changed_and_full_cap {F : Type} [DecidableEq F]
    (FA : FloatArith F) (prog : IRProgram F) (level : OptimizationLevel)
    (hP : hasEntryFunction prog = true)
    (hlevel : level = .Aggressive ∨ level = .Maximum) :
    (∀ p : IRProgram F, (∃ nf ∈ p.functions, nf.2.blocks ≠ []) →
      (ssaRun p).2 = true) ∧
    (run_passes FA level prog).2 = get_iteration_count level := by
  refine ⟨fun p hp => ssaRun_changed p hp, ?_⟩
  unfold run_passes
  rcases hlevel with rfl | rfl
  · exact runPassesGo_full FA _ (by decide) _ prog hP
  · exact runPassesGo_full FA _ (by decide) _ prog hP

/-- C10 witness: the amended theorem applied to a well-formed
one-function program (`main` with entry block id 0), at level
Aggressive: the SSA flag is `true` and the driver runs all 3
iterations. -/
theorem ssa_full_cap_witness :
    hasEntryFunction entryBlockProgram = true ∧
    (ssaRun entryBlockProgram).2 = true ∧
    (run_passes unitFloats .Aggressive entryBlockProgram).2 = 3 := by
  have hP : hasEntryFunction entryBlockProgram = true := by decide
  have h := ssa_always_changed_and_full_cap unitFloats entryBlockProgram .Aggressive hP
    (Or.inl rfl)
  refine ⟨hP, ?_, h.2⟩
  exact h.1 entryBlockProgram ⟨_, List.mem_cons_self _ _, List.cons_ne_nil _ _⟩

end Magolor
